import Mathlib

/-!
# Application specification: loading, validation and lookup

A shallow embedding of `pkg/config/application.go`.

* A field the source calls `Type` is `Type_` here (`Type` is reserved).
* Go `string` is `String`, Go `int` is `Int`, a slice is a `List`, a pointer that
  may be nil is an `Option`, a `map[string]T` is an association list.
* Go `error` is `Option String`: `none` is the nil error, `some msg` is an error
  whose `Error()` text is `msg`.  `fmt.Errorf` with `%s` / `%w` verbs is string
  concatenation of the formatted text.
* A Go function returning `(*T, error)` returns the pair `Option T × Option String`.
-/

namespace Config

/-! ## Data model -/

/-- A Go `float64`, kept as its bit pattern (no arithmetic is done on it here). -/
structure Float64 where
  bits : Nat
  deriving DecidableEq, Repr

/-- Go `error`: `none` is nil. -/
abbrev GoError := Option String

/-- Maintainer represents an application maintainer. -/
structure Maintainer where
  Name : String
  Email : String
  deriving DecidableEq, Repr

/-- ApplicationMetadata contains application metadata. -/
structure ApplicationMetadata where
  Description : String
  Homepage : String
  Documentation : String
  Repository : String
  License : String
  Maintainers : List Maintainer
  Tags : List String
  deriving DecidableEq, Repr

/-- Variant represents an application variant. -/
structure Variant where
  Name : String
  DisplayName : String
  Description : String
  Type_ : String
  Parallelism : String
  UpstreamVersion : String
  deriving DecidableEq, Repr

/-- MathLibrary defines math library configuration. -/
structure MathLibrary where
  Name : String
  Version : String
  BLAS : String
  LAPACK : String
  deriving DecidableEq, Repr

/-- Architecture defines a CPU architecture configuration. -/
structure Architecture where
  Name : String
  Family : String
  Generation : String
  InstanceTypes : List String
  CompilerFlags : List String
  MathLibrary : MathLibrary
  BaseImage : String
  deriving DecidableEq, Repr

/-- ComputeEnvironment defines a compute environment. -/
structure ComputeEnvironment where
  Type_ : String
  Architectures : List String
  MaxVCPUs : Int
  deriving DecidableEq, Repr

/-- Queue defines a job queue configuration. -/
structure Queue where
  Name : String
  Priority : Int
  ComputeEnvironments : List ComputeEnvironment
  deriving DecidableEq, Repr

/-- BatchConfig defines AWS Batch configuration. -/
structure BatchConfig where
  MinVCPUs : Int
  MaxVCPUs : Int
  SpotBidPercentage : Int
  Queues : List Queue
  deriving DecidableEq, Repr

/-- ComputeSpec defines compute requirements. -/
structure ComputeSpec where
  Architectures : List Architecture
  Batch : BatchConfig
  deriving DecidableEq, Repr

/-- ContainerVariant defines a container variant build configuration. -/
structure ContainerVariant where
  Dockerfile : String
  Context : String
  BuildArgs : List (String × String)
  deriving DecidableEq, Repr

/-- ContainerSpec defines container configuration. -/
structure ContainerSpec where
  Registry : String
  Repository : String
  BuildSystem : String
  Variants : List (String × ContainerVariant)
  Dependencies : List String
  deriving DecidableEq, Repr

/-- LifecyclePolicy defines S3 lifecycle rules. -/
structure LifecyclePolicy where
  TransitionIA : Int
  TransitionGlacier : Int
  Expiration : Int
  deriving DecidableEq, Repr

/-- StorageLocation defines a storage location. -/
structure StorageLocation where
  Type_ : String
  Bucket : String
  Prefix : String
  Lifecycle : Option LifecyclePolicy
  deriving DecidableEq, Repr

/-- ScratchStorage defines local scratch storage. -/
structure ScratchStorage where
  Type_ : String
  SizeGB : Int
  VolumeType : String
  IOPS : Int
  deriving DecidableEq, Repr

/-- SharedStorage defines shared filesystem. -/
structure SharedStorage where
  Type_ : String
  SizeGB : Int
  ThroughputMode : String
  deriving DecidableEq, Repr

/-- StorageSpec defines storage requirements. -/
structure StorageSpec where
  Input : StorageLocation
  Output : StorageLocation
  Scratch : ScratchStorage
  Shared : Option SharedStorage
  deriving DecidableEq, Repr

/-- Environment defines a runtime environment configuration. -/
structure Environment where
  Name : String
  Config : String
  Description : String
  deriving DecidableEq, Repr

/-- BaselineCost defines baseline cost parameters. -/
structure BaselineCost where
  Architecture : String
  RuntimeHours : Float64
  CostPerHour : Float64
  deriving DecidableEq, Repr

/-- CostSpec defines cost estimation parameters. -/
structure CostSpec where
  EstimateMethod : String
  Baseline : BaselineCost
  ScalingFactors : List (String × Float64)
  deriving DecidableEq, Repr

/-- LicensingSpec defines license requirements. -/
structure LicensingSpec where
  Type_ : String
  Server : String
  Feature : String
  TokensPerJob : Int
  deriving DecidableEq, Repr

/-- GPUSpec defines GPU requirements. -/
structure GPUSpec where
  Required : Bool
  Types : List String
  Count : Int
  MemoryGB : Int
  deriving DecidableEq, Repr

/-- NetworkingSpec defines networking requirements. -/
structure NetworkingSpec where
  EFA : Bool
  PlacementGroup : Bool
  deriving DecidableEq, Repr

/-- Application represents a complete application specification. -/
structure Application where
  Name : String
  DisplayName : String
  Version : String
  PlatformVersion : String
  Metadata : ApplicationMetadata
  Variants : List Variant
  Compute : ComputeSpec
  Containers : ContainerSpec
  Storage : StorageSpec
  Environments : List Environment
  Cost : CostSpec
  Licensing : LicensingSpec
  GPU : GPUSpec
  Networking : NetworkingSpec
  deriving DecidableEq, Repr

/-! ## Validation -/

/-- Validate validates an architecture configuration. -/
def Architecture.Validate (a : Architecture) : GoError :=
  if a.Name = "" then
    some "name is required"
  else if a.Family = "" then
    some "family is required"
  else if a.InstanceTypes.length = 0 then
    some "at least one instance type is required"
  else if a.BaseImage = "" then
    some "base_image is required"
  else
    none

/-- The loop `for _, arch := range a.Compute.Architectures` of `Application.Validate`:
the first architecture whose `Validate` fails ends the loop with the wrapped error. -/
def validateArchitectures : List Architecture → GoError
  | [] => none
  | arch :: rest =>
    match arch.Validate with
    | some err => some ("invalid architecture " ++ arch.Name ++ ": " ++ err)
    | none => validateArchitectures rest

/-- Validate validates the application specification. -/
def Application.Validate (a : Application) : GoError :=
  if a.Name = "" then
    some "name is required"
  else if a.Version = "" then
    some "version is required"
  else if a.PlatformVersion = "" then
    some "platform_version is required"
  else if a.Variants.length = 0 then
    some "at least one variant is required"
  else if a.Compute.Architectures.length = 0 then
    some "at least one architecture is required"
  else
    validateArchitectures a.Compute.Architectures

/-! ## Lookup by name -/

/-- The loop of `GetArchitecture` over the architecture slice. -/
def lookupArchitecture (name : String) : List Architecture → Option Architecture × GoError
  | [] => (none, some ("architecture " ++ name ++ " not found"))
  | arch :: rest =>
    if arch.Name = name then (some arch, none) else lookupArchitecture name rest

/-- GetArchitecture returns the architecture configuration by name. -/
def Application.GetArchitecture (a : Application) (name : String) :
    Option Architecture × GoError :=
  lookupArchitecture name a.Compute.Architectures

/-- The loop of `GetVariant` over the variant slice. -/
def lookupVariant (name : String) : List Variant → Option Variant × GoError
  | [] => (none, some ("variant " ++ name ++ " not found"))
  | variant :: rest =>
    if variant.Name = name then (some variant, none) else lookupVariant name rest

/-- GetVariant returns the variant configuration by name. -/
def Application.GetVariant (a : Application) (name : String) :
    Option Variant × GoError :=
  lookupVariant name a.Variants

/-- The loop of `GetEnvironment` over the environment slice. -/
def lookupEnvironment (name : String) : List Environment → Option Environment × GoError
  | [] => (none, some ("environment " ++ name ++ " not found"))
  | env :: rest =>
    if env.Name = name then (some env, none) else lookupEnvironment name rest

/-- GetEnvironment returns the environment configuration by name. -/
def Application.GetEnvironment (a : Application) (name : String) :
    Option Environment × GoError :=
  lookupEnvironment name a.Environments

/-! ## Loading -/

/-- LoadApplication loads an application specification from app.yaml.

The file system and the YAML decoder are outside the repository: `join` stands
for `filepath.Join`, `readFile` for `os.ReadFile` (the bytes read and an error)
and `unmarshal` for `yaml.Unmarshal(data, &app)` on a zero `app` (the
application as the decoder left it and an error).  This is the function on the
calls in which the decoder returns; `LoadApplicationRun` below also covers a
decoder that panics. -/
def LoadApplication {Bytes : Type} (join : String → String → String)
    (readFile : String → Bytes × GoError)
    (unmarshal : Bytes → Application × GoError)
    (path : String) : Option Application × GoError :=
  let appYAMLPath := join path "app.yaml"
  match readFile appYAMLPath with
  | (_, some err) => (none, some ("failed to read app.yaml: " ++ err))
  | (data, none) =>
    match unmarshal data with
    | (_, some err) => (none, some ("failed to parse app.yaml: " ++ err))
    | (app, none) =>
      match app.Validate with
      | some err => (none, some ("invalid application specification: " ++ err))
      | none => (some app, none)

/-! ## Predicates on messages -/

/-- A message names a field when the field's word occurs in it as a substring. -/
def mentions (msg word : String) : Prop := word.data <:+: msg.data

instance (msg word : String) : Decidable (mentions msg word) := by
  unfold mentions; infer_instance

/-- A message starts with a given text. -/
def hasPrefix (msg pre : String) : Prop := pre.data <+: msg.data

instance (msg pre : String) : Decidable (hasPrefix msg pre) := by
  unfold hasPrefix; infer_instance

/-! ## The order of the checks, following the specification's words

The specification lists the checks in order: name, version, platform-version,
variants non-empty, architectures non-empty, then every architecture entry
(name, family, instance-type list, base-image), and says the first violated one is
reported.  Each check is a pair: whether it is violated, and its message. -/

/-- The five top-level checks in the specification's order. -/
def applicationChecks (a : Application) : List (Bool × String) :=
  [ (decide (a.Name = ""), "name is required"),
    (decide (a.Version = ""), "version is required"),
    (decide (a.PlatformVersion = ""), "platform_version is required"),
    (decide (a.Variants = []), "at least one variant is required"),
    (decide (a.Compute.Architectures = []), "at least one architecture is required") ]

/-- The four checks of one architecture in the specification's order. -/
def architectureChecks (arch : Architecture) : List (Bool × String) :=
  [ (decide (arch.Name = ""), "name is required"),
    (decide (arch.Family = ""), "family is required"),
    (decide (arch.InstanceTypes = []), "at least one instance type is required"),
    (decide (arch.BaseImage = ""), "base_image is required") ]

/-- The checks of one architecture as they are reported at the application level. -/
def reportedArchitectureChecks (arch : Architecture) : List (Bool × String) :=
  (architectureChecks arch).map
    (fun c => (c.1, "invalid architecture " ++ arch.Name ++ ": " ++ c.2))

/-- All the checks of a specification, in the specification's order. -/
def orderedChecks (a : Application) : List (Bool × String) :=
  applicationChecks a ++ a.Compute.Architectures.flatMap reportedArchitectureChecks

/-- The message of the first violated check of a list, if any is violated. -/
def firstViolated (cs : List (Bool × String)) : Option String :=
  (cs.find? (fun c => c.1)).map (fun c => c.2)

/-- The top-level part of `Application.Validate` passes. -/
def topLevelOk (a : Application) : Prop :=
  a.Name ≠ "" ∧ a.Version ≠ "" ∧ a.PlatformVersion ≠ "" ∧ a.Variants ≠ [] ∧
    a.Compute.Architectures ≠ []

instance (a : Application) : Decidable (topLevelOk a) := by
  unfold topLevelOk; infer_instance

/-! ## Sample values -/

/-- An empty math library block. -/
def sampleMath : MathLibrary := ⟨"", "", "", ""⟩

/-- The architecture of the worked example: `c7a`, family `amd`. -/
def archC7a : Architecture :=
  ⟨"c7a", "amd", "zen4", ["c7a.xlarge"], [], sampleMath, "hpc-base-amd-zen4:20251018"⟩

/-- An architecture whose every field is the zero value. -/
def archZero : Architecture := ⟨"", "", "", [], [], sampleMath, ""⟩

/-- The variant of the worked example. -/
def variantClassic : Variant := ⟨"classic", "", "", "", "", ""⟩

/-- An application with the given identity strings, variants, architectures and
environments, every other block at its zero value. -/
def mkApp (name version platformVersion : String) (variants : List Variant)
    (archs : List Architecture) (envs : List Environment) : Application :=
  { Name := name, DisplayName := "", Version := version, PlatformVersion := platformVersion,
    Metadata := ⟨"", "", "", "", "", [], []⟩,
    Variants := variants,
    Compute := ⟨archs, ⟨0, 0, 0, []⟩⟩,
    Containers := ⟨"", "", "", [], []⟩,
    Storage := ⟨⟨"", "", "", none⟩, ⟨"", "", "", none⟩, ⟨"", 0, "", 0⟩, none⟩,
    Environments := envs,
    Cost := ⟨"", ⟨"", ⟨0⟩, ⟨0⟩⟩, []⟩,
    Licensing := ⟨"", "", "", 0⟩,
    GPU := ⟨false, [], 0, 0⟩,
    Networking := ⟨false, false⟩ }

/-- The worked example of the specification: `geos-chem` with one variant and one
architecture. -/
def geosChem : Application :=
  mkApp "geos-chem" "1.0.0" "0.1.0" [variantClassic] [archC7a] []

/-- An architecture named `c7i` whose family is missing. -/
def archNoFamily : Architecture :=
  ⟨"c7i", "", "sapphirerapids", ["c7i.xlarge"], [], sampleMath, "hpc-base-intel:20251018"⟩

/-- An architecture named `c7g` whose base image is missing. -/
def archNoImage : Architecture :=
  ⟨"c7g", "arm", "neoverse-v2", ["c7g.xlarge"], [], sampleMath, ""⟩

/-- The worked example followed by two invalid architectures. -/
def appTwoInvalid : Application :=
  mkApp "geos-chem" "1.0.0" "0.1.0" [variantClassic] [archC7a, archNoFamily, archNoImage] []

/-- A specification with neither name nor version. -/
def appNoNameNoVersion : Application :=
  mkApp "" "" "0.1.0" [variantClassic] [archC7a] []

/-- A specification with a name and no version. -/
def appNoVersion : Application :=
  mkApp "geos-chem" "" "0.1.0" [variantClassic] [archC7a] []

/-- The worked example with an unnamed architecture in second position. -/
def appUnnamedSecond : Application :=
  mkApp "geos-chem" "1.0.0" "0.1.0" [variantClassic] [archC7a, archZero] []

/-- The worked example with an unnamed architecture in first position. -/
def appUnnamedFirst : Application :=
  mkApp "geos-chem" "1.0.0" "0.1.0" [variantClassic] [archZero, archC7a] []

/-- A second variant. -/
def variantGchp : Variant := ⟨"gchp", "", "", "multi-node", "mpi", ""⟩

/-- A deployment profile. -/
def envProd : Environment := ⟨"prod", "prod.yaml", ""⟩

/-- A valid architecture that reuses the name `c7a` with another family. -/
def archC7aShadow : Architecture :=
  ⟨"c7a", "intel", "", ["c7i.xlarge"], [], sampleMath, "hpc-base-intel:20251018"⟩

/-- A specification with two variants, two architectures and one environment. -/
def appLookup : Application :=
  mkApp "geos-chem" "1.0.0" "0.1.0" [variantClassic, variantGchp] [archNoFamily, archC7a]
    [envProd]

/-- A specification in which two architectures are named `c7a`. -/
def appDuplicates : Application :=
  mkApp "geos-chem" "1.0.0" "0.1.0" [variantClassic] [archNoFamily, archC7a, archC7aShadow] []

/-- A file system holding one document, at `apps/geos-chem/app.yaml`; a read of
any other path fails the way `os.ReadFile` reports it. -/
def sampleReadFile (p : String) : String × GoError :=
  if p = "apps/geos-chem/app.yaml" then ("name: geos-chem", none)
  else ("", some ("open " ++ p ++ ": no such file or directory"))

/-- A decoder that accepts the sample document only. -/
def sampleUnmarshal (data : String) : Application × GoError :=
  if data = "name: geos-chem" then (geosChem, none)
  else (mkApp "" "" "" [] [] [], some "yaml: did not find expected key")

/-- Path joining for the samples: a separator between directory and file name. -/
def sampleJoin (dir file : String) : String := dir ++ "/" ++ file

/-- What `Architecture.Validate` reads of an architecture: Name, Family, whether
InstanceTypes is empty, BaseImage. -/
def archKey (x : Architecture) : String × String × Bool × String :=
  (x.Name, x.Family, decide (x.InstanceTypes = []), x.BaseImage)

/-- A decoder that reports an error and leaves some decoded fields behind. -/
def partialUnmarshal (_data : String) : Application × GoError :=
  (mkApp "geos-chem" "1.0.0" "" [variantClassic] [] [],
    some "yaml: line 4: did not find expected key")

/-- The architecture `c7a` with another generation, instance-type list, compiler
flags and math library. -/
def archC7aTuned : Architecture :=
  ⟨"c7a", "amd", "zen5", ["c7a.large", "c7a.2xlarge"], ["-O3"], ⟨"aocl", "4.2", "blis", ""⟩,
    "hpc-base-amd-zen4:20251018"⟩

/-- The worked example with other variants, another instance-type list and the
optional blocks filled in. -/
def geosChemFull : Application :=
  { geosChem with
    DisplayName := "GEOS-Chem",
    Variants := [variantGchp, variantClassic],
    Compute :=
      ⟨[archC7aTuned],
        ⟨0, 256, 80, [⟨"default", 1, [⟨"spot", ["c7a"], 128⟩]⟩]⟩⟩,
    Environments := [envProd],
    Licensing := ⟨"flexlm", "lic.example.org", "solver", 2⟩,
    GPU := ⟨true, ["a100"], 1, 40⟩,
    Networking := ⟨true, true⟩ }

/-- A valid specification in which two architectures are named `c7a`. -/
def appShadowed : Application :=
  mkApp "geos-chem" "1.0.0" "0.1.0" [variantClassic] [archC7a, archC7aShadow] []

/-! ## Serialized keys of the schema -/

/-- One field of a record with the key of its `yaml` struct tag. -/
structure FieldTag where
  field : String
  key : String
  omitempty : Bool
  deriving DecidableEq, Repr

/-- The `yaml` struct tags of the record `ScratchStorage`, in source order. -/
def scratchStorageTags : List FieldTag :=
  [⟨"Type", "type", false⟩, ⟨"SizeGB", "size_gb", false⟩, ⟨"VolumeType", "type", false⟩,
   ⟨"IOPS", "iops", true⟩]

/-- The `yaml` struct tags of every record type of the schema, in source order. -/
def schemaTags : List (String × List FieldTag) :=
  [ ("Application",
      [⟨"Name", "name", false⟩, ⟨"DisplayName", "display_name", false⟩,
       ⟨"Version", "version", false⟩, ⟨"PlatformVersion", "platform_version", false⟩,
       ⟨"Metadata", "metadata", false⟩, ⟨"Variants", "variants", false⟩,
       ⟨"Compute", "compute", false⟩, ⟨"Containers", "containers", false⟩,
       ⟨"Storage", "storage", false⟩, ⟨"Environments", "environments", false⟩,
       ⟨"Cost", "cost", true⟩, ⟨"Licensing", "licensing", true⟩, ⟨"GPU", "gpu", true⟩,
       ⟨"Networking", "networking", true⟩]),
    ("ApplicationMetadata",
      [⟨"Description", "description", false⟩, ⟨"Homepage", "homepage", false⟩,
       ⟨"Documentation", "documentation", false⟩, ⟨"Repository", "repository", false⟩,
       ⟨"License", "license", false⟩, ⟨"Maintainers", "maintainers", false⟩,
       ⟨"Tags", "tags", false⟩]),
    ("Maintainer", [⟨"Name", "name", false⟩, ⟨"Email", "email", false⟩]),
    ("Variant",
      [⟨"Name", "name", false⟩, ⟨"DisplayName", "display_name", false⟩,
       ⟨"Description", "description", false⟩, ⟨"Type", "type", false⟩,
       ⟨"Parallelism", "parallelism", false⟩,
       ⟨"UpstreamVersion", "upstream_version", false⟩]),
    ("ComputeSpec", [⟨"Architectures", "architectures", false⟩, ⟨"Batch", "batch", false⟩]),
    ("Architecture",
      [⟨"Name", "name", false⟩, ⟨"Family", "family", false⟩,
       ⟨"Generation", "generation", false⟩, ⟨"InstanceTypes", "instance_types", false⟩,
       ⟨"CompilerFlags", "compiler_flags", false⟩, ⟨"MathLibrary", "math_library", false⟩,
       ⟨"BaseImage", "base_image", false⟩]),
    ("MathLibrary",
      [⟨"Name", "name", false⟩, ⟨"Version", "version", false⟩, ⟨"BLAS", "blas", true⟩,
       ⟨"LAPACK", "lapack", true⟩]),
    ("BatchConfig",
      [⟨"MinVCPUs", "min_vcpus", false⟩, ⟨"MaxVCPUs", "max_vcpus", false⟩,
       ⟨"SpotBidPercentage", "spot_bid_percentage", false⟩, ⟨"Queues", "queues", false⟩]),
    ("Queue",
      [⟨"Name", "name", false⟩, ⟨"Priority", "priority", false⟩,
       ⟨"ComputeEnvironments", "compute_environments", false⟩]),
    ("ComputeEnvironment",
      [⟨"Type", "type", false⟩, ⟨"Architectures", "architectures", false⟩,
       ⟨"MaxVCPUs", "max_vcpus", false⟩]),
    ("ContainerSpec",
      [⟨"Registry", "registry", false⟩, ⟨"Repository", "repository", false⟩,
       ⟨"BuildSystem", "build_system", false⟩, ⟨"Variants", "variants", false⟩,
       ⟨"Dependencies", "dependencies", false⟩]),
    ("ContainerVariant",
      [⟨"Dockerfile", "dockerfile", false⟩, ⟨"Context", "context", false⟩,
       ⟨"BuildArgs", "build_args", false⟩]),
    ("StorageSpec",
      [⟨"Input", "input", false⟩, ⟨"Output", "output", false⟩,
       ⟨"Scratch", "scratch", false⟩, ⟨"Shared", "shared", true⟩]),
    ("StorageLocation",
      [⟨"Type", "type", false⟩, ⟨"Bucket", "bucket", true⟩, ⟨"Prefix", "prefix", true⟩,
       ⟨"Lifecycle", "lifecycle", true⟩]),
    ("LifecyclePolicy",
      [⟨"TransitionIA", "transition_ia", true⟩,
       ⟨"TransitionGlacier", "transition_glacier", true⟩,
       ⟨"Expiration", "expiration", true⟩]),
    ("ScratchStorage", scratchStorageTags),
    ("SharedStorage",
      [⟨"Type", "type", false⟩, ⟨"SizeGB", "size_gb", false⟩,
       ⟨"ThroughputMode", "throughput_mode", true⟩]),
    ("Environment",
      [⟨"Name", "name", false⟩, ⟨"Config", "config", false⟩,
       ⟨"Description", "description", false⟩]),
    ("CostSpec",
      [⟨"EstimateMethod", "estimate_method", false⟩, ⟨"Baseline", "baseline", false⟩,
       ⟨"ScalingFactors", "scaling_factors", false⟩]),
    ("BaselineCost",
      [⟨"Architecture", "architecture", false⟩, ⟨"RuntimeHours", "runtime_hours", false⟩,
       ⟨"CostPerHour", "cost_per_hour", false⟩]),
    ("LicensingSpec",
      [⟨"Type", "type", false⟩, ⟨"Server", "server", true⟩, ⟨"Feature", "feature", true⟩,
       ⟨"TokensPerJob", "tokens_per_job", true⟩]),
    ("GPUSpec",
      [⟨"Required", "required", false⟩, ⟨"Types", "types", false⟩,
       ⟨"Count", "count", false⟩, ⟨"MemoryGB", "memory_gb", false⟩]),
    ("NetworkingSpec",
      [⟨"EFA", "efa", false⟩, ⟨"PlacementGroup", "placement_group", false⟩]) ]

/-- The serialized keys of a record, one for each field, in source order. -/
def yamlKeys (tags : List FieldTag) : List String := tags.map FieldTag.key

/-- The fields of a record that a given key of a document block maps to. -/
def fieldsOfKey (tags : List FieldTag) (key : String) : List String :=
  (tags.filter (fun t => decide (t.key = key))).map FieldTag.field

/-! ## Decoding that may panic -/

/-- How a call ends: it returns a value, or it panics and returns nothing. -/
inductive Outcome (α : Type) where
  | returned (value : α)
  | panicked (msg : String)

/-- LoadApplication loads an application specification from app.yaml, with a
decoder that either returns or panics.  `LoadApplication` has no `recover`, so a
panic of the decoder ends the call without a return value. -/
def LoadApplicationRun {Bytes : Type} (join : String → String → String)
    (readFile : String → Bytes × GoError)
    (unmarshal : Bytes → Outcome (Application × GoError))
    (path : String) : Outcome (Option Application × GoError) :=
  let appYAMLPath := join path "app.yaml"
  match readFile appYAMLPath with
  | (_, some err) => Outcome.returned (none, some ("failed to read app.yaml: " ++ err))
  | (data, none) =>
    match unmarshal data with
    | Outcome.panicked msg => Outcome.panicked msg
    | Outcome.returned (_, some err) =>
      Outcome.returned (none, some ("failed to parse app.yaml: " ++ err))
    | Outcome.returned (app, none) =>
      match app.Validate with
      | some err =>
        Outcome.returned (none, some ("invalid application specification: " ++ err))
      | none => Outcome.returned (some app, none)

/-- The first key, in field order, that an earlier field of the record already
carries. -/
def firstDuplicateKey (seen : List String) : List FieldTag → Option String
  | [] => none
  | t :: rest =>
    if t.key ∈ seen then some t.key else firstDuplicateKey (t.key :: seen) rest

/-- The check the YAML library (outside the repository) makes on a struct type
before it decodes a mapping into it: a key carried by two fields is an error,
"duplicated key" with the key and the name of the struct. -/
def structInfoError (name : String) (tags : List FieldTag) : Option String :=
  (firstDuplicateKey [] tags).map
    (fun key => "duplicated key \x27" ++ key ++ "\x27 in struct " ++ name)

/-- The call `yaml.Unmarshal(data, &app)` as far as the record `ScratchStorage` is
concerned.  `hasScratchMapping` says whether the document has a mapping under
`storage.scratch`; if it has, the library looks up the fields of `ScratchStorage`
and panics on the error of `structInfoError`, a panic that `Unmarshal` does not
turn into an error.  Otherwise, and for every other record (their keys are
distinct), the decoding is `decode`. -/
def unmarshalApplication {Bytes : Type} (hasScratchMapping : Bytes → Bool)
    (decode : Bytes → Application × GoError) (data : Bytes) :
    Outcome (Application × GoError) :=
  if hasScratchMapping data then
    match structInfoError "config.ScratchStorage" scratchStorageTags with
    | some msg => Outcome.panicked msg
    | none => Outcome.returned (decode data)
  else Outcome.returned (decode data)

/-- A file system holding the worked example with a scratch block. -/
def scratchReadFile (_p : String) : String × GoError :=
  ("name: geos-chem\nstorage:\n  scratch:\n    type: ebs\n    size_gb: 100", none)

/-- Whether a sample document has a scratch mapping. -/
def sampleHasScratch (data : String) : Bool := decide (mentions data "scratch:\n")

end Config

/-!
# Configuration generator

A shallow embedding of `applications/_template/scripts/config-generator.go`.

* `Variables`, a Go `map[string]string`, is the list of its entries in the order
  in which a `range` over the map visits them; Go leaves that order unspecified,
  so every permutation of the entries is a possible visit order.
* `Config`, a Go `map[string]interface{}`, is an association list over a type of
  decoded values.
* `strings.ReplaceAll`, `os.Getenv`, `runtime.NumCPU` and `yaml.Unmarshal` are
  outside the repository; the first is modelled on the characters of the text
  (for UTF-8 text a match on bytes is a match on characters), the others are
  parameters.
-/

namespace Generator

/-- Variables holds template substitution variables. -/
abbrev Variables := List (String × String)

/-- The scan of `strings.ReplaceAll` for a non-empty `old`: left to right, at each
position where `old` starts it emits `new` and skips the characters of `old`,
elsewhere it copies the character.  `skip` counts the characters of a matched
occurrence that are still to be passed over. -/
def replaceFrom (old new : List Char) : Nat → List Char → List Char
  | _, [] => []
  | skip + 1, _ :: rest => replaceFrom old new skip rest
  | 0, c :: rest =>
    if old.isPrefixOf (c :: rest) then new ++ replaceFrom old new (old.length - 1) rest
    else c :: replaceFrom old new 0 rest

/-- The function `strings.ReplaceAll(s, old, new)`: `s` with all non-overlapping
instances of `old` replaced by `new`; an empty `old` matches at the beginning of
the string and after each character. -/
def ReplaceAll (s old new : String) : String :=
  if old = "" then String.mk (new.data ++ s.data.flatMap (fun c => c :: new.data))
  else String.mk (replaceFrom old.data new.data 0 s.data)

/-- The placeholder of a key, `fmt.Sprintf` of the key between two opening and two
closing braces. -/
def placeholder (key : String) : String := "\x7b\x7b" ++ key ++ "\x7d\x7d"

/-- substituteVariables replaces the placeholders of the variables in template
(`vars` is the source's `variables`, a reserved word here). -/
def substituteVariables (template : String) (vars : Variables) : String :=
  vars.foldl (fun result kv => ReplaceAll result (placeholder kv.1) kv.2) template

/-- The test `_, ok := config[key]`. -/
def hasKey {Value : Type} (config : List (String × Value)) (key : String) : Bool :=
  config.any (fun kv => decide (kv.1 = key))

/-- validateConfig validates the generated configuration YAML.  `unmarshal` stands
for `yaml.Unmarshal(content, &config)`: the mapping it filled and its error. -/
def validateConfig {Bytes Value : Type}
    (unmarshal : Bytes → List (String × Value) × Config.GoError) (content : Bytes) :
    Config.GoError :=
  match unmarshal content with
  | (_, some err) => some ("invalid YAML: " ++ err)
  | (config, none) =>
    if ¬ hasKey config "input_dir" then
      some "input_dir not specified"
    else if ¬ hasKey config "output_dir" then
      some "output_dir not specified"
    else
      none

/-- The function `os.Getenv` over an environment that maps a name to its value
when the variable is set: the value, or the empty string when it is not set. -/
def Getenv (env : String → Option String) (key : String) : String :=
  (env key).getD ""

/-- getEnv gets an environment variable with a default value. -/
def getEnv (env : String → Option String) (key defaultValue : String) : String :=
  if Getenv env key ≠ "" then Getenv env key else defaultValue

/-- getVariables returns default variables from environment; `numCPU` stands for
`runtime.NumCPU()`, printed in decimal. -/
def getVariables (env : String → Option String) (numCPU : Int) : Variables :=
  [ ("INPUT_DIR", getEnv env "APP_DATA" "/data/input"),
    ("OUTPUT_DIR", getEnv env "APP_OUTPUT" "/data/output"),
    ("NUM_THREADS", getEnv env "OMP_NUM_THREADS" (toString numCPU)),
    ("VERSION", getEnv env "APP_VERSION" "1.0.0") ]

/-! ## Templates as text segments and placeholders -/

/-- A piece of a template: literal text, or the placeholder of a key. -/
inductive Piece where
  | text (s : String)
  | ref (key : String)
  deriving DecidableEq, Repr

/-- The characters of a template given piece by piece, where `f` says which keys
have been given a value: a placeholder whose key has a value stands for that
value, any other placeholder is written out. -/
def expand (f : String → Option String) : List Piece → List Char
  | [] => []
  | Piece.text s :: ps => s.data ++ expand f ps
  | Piece.ref key :: ps =>
    (match f key with
      | some value => value.data
      | none => (placeholder key).data) ++ expand f ps

/-- The template text of a list of pieces. -/
def templateOf (pieces : List Piece) : String :=
  String.mk (expand (fun _ => none) pieces)

/-- The template with each placeholder occurrence replaced by the value of its key. -/
def filledTemplate (vars : Variables) (pieces : List Piece) : String :=
  String.mk (expand (fun key => vars.lookup key) pieces)

/-- The literal text segments of a template. -/
def texts (pieces : List Piece) : List String :=
  pieces.filterMap (fun p => match p with
    | Piece.text s => some s
    | Piece.ref _ => none)

/-- The keys whose placeholders occur in a template. -/
def refKeys (pieces : List Piece) : List String :=
  pieces.filterMap (fun p => match p with
    | Piece.text _ => none
    | Piece.ref key => some key)

/-- A template with text that has single braces in it, two placeholders of one
key, one of another, and one of a key that is not a variable. -/
def samplePieces : List Piece :=
  [Piece.text "home: $\x7bHOME\x7d input_dir: ", Piece.ref "INPUT_DIR",
   Piece.text " threads: ", Piece.ref "NUM_THREADS", Piece.text " again: ",
   Piece.ref "INPUT_DIR", Piece.text " other: ", Piece.ref "UNKNOWN"]

/-- Variables for the sample template, visited in some order. -/
def sampleVars : Variables :=
  [("NUM_THREADS", "8"), ("VERSION", "1.0.0"), ("INPUT_DIR", "/data/input")]

/-- The placeholder of `A` between two opening and two closing braces. -/
def nestedTemplate : String := placeholder (placeholder "A")

/-- An environment in which only `APP_VERSION` is set, to `DIR`. -/
def envVersionDir (key : String) : Option String :=
  if key = "APP_VERSION" then some "DIR" else none

/-- An environment in which `APP_DATA` is set to the empty string and `APP_OUTPUT`
to `/scratch/out`. -/
def envEmptyData (key : String) : Option String :=
  if key = "APP_DATA" then some ""
  else if key = "APP_OUTPUT" then some "/scratch/out"
  else none

/-- A template in which the placeholder of `VERSION` is part of the name inside
another pair of braces. -/
def versionedTemplate : String :=
  "\x7b\x7bINPUT_" ++ placeholder "VERSION" ++ "\x7d\x7d"

/-- A decoder for two sample documents: one mapping with a null `input_dir` and an
empty `output_dir`, one empty mapping; anything else does not decode. -/
def sampleDecode (content : String) : List (String × Option String) × Config.GoError :=
  if content = "input_dir:\noutput_dir: \"\"" then
    ([("input_dir", none), ("output_dir", some "")], none)
  else if content = "threads: 8" then
    ([("threads", some "8")], none)
  else
    ([], some "yaml: unmarshal errors")

/-- Every opening brace of a text is followed, in the text, by a character that
is not an opening brace: the text has no two consecutive opening braces and does
not end with one. -/
def openIsolated : List Char → Bool
  | [] => true
  | c :: rest =>
    if c = Char.ofNat 123 then
      (match rest with
        | [] => false
        | d :: _ => decide (d ≠ Char.ofNat 123)) && openIsolated rest
    else openIsolated rest

/-- The word `old` begins at no position of the stretch `a` of the text `a ++ rest`. -/
def skips (old : List Char) : List Char → List Char → Prop
  | [], _ => True
  | c :: a, rest => ¬ old <+: c :: (a ++ rest) ∧ skips old a rest

/-- A word occurs in a text, as a run of consecutive characters. -/
def occursIn (word text : String) : Prop := word.data <:+: text.data

instance (word text : String) : Decidable (occursIn word text) := by
  unfold occursIn; infer_instance

/-- The opening and the closing brace. -/
def isBrace (c : Char) : Bool := c = Char.ofNat 123 || c = Char.ofNat 125

end Generator

namespace Config

/-! ## Shared lemmas -/

theorem architecture_validate_none_iff (a : Architecture) :
    a.Validate = none ↔
      a.Name ≠ "" ∧ a.Family ≠ "" ∧ a.InstanceTypes ≠ [] ∧ a.BaseImage ≠ "" := by
  unfold Architecture.Validate
  by_cases h1 : a.Name = "" <;> by_cases h2 : a.Family = "" <;>
    by_cases h3 : a.InstanceTypes = [] <;> by_cases h4 : a.BaseImage = "" <;>
    simp [h1, h2, h3, h4]

theorem architecture_validate_eq_firstViolated (a : Architecture) :
    a.Validate = firstViolated (architectureChecks a) := by
  unfold Architecture.Validate firstViolated architectureChecks
  by_cases h1 : a.Name = "" <;> by_cases h2 : a.Family = "" <;>
    by_cases h3 : a.InstanceTypes = [] <;> by_cases h4 : a.BaseImage = "" <;>
    simp [h1, h2, h3, h4, List.find?]

theorem validateArchitectures_none_iff (l : List Architecture) :
    validateArchitectures l = none ↔ ∀ x ∈ l, x.Validate = none := by
  induction l with
  | nil => simp [validateArchitectures]
  | cons x rest ih =>
    unfold validateArchitectures
    cases hx : x.Validate with
    | none => simp [hx, ih]
    | some e => simp [hx]

theorem validateArchitectures_first (pre post : List Architecture) (x : Architecture)
    (e : String) (hpre : ∀ y ∈ pre, y.Validate = none) (hx : x.Validate = some e) :
    validateArchitectures (pre ++ x :: post) =
      some ("invalid architecture " ++ x.Name ++ ": " ++ e) := by
  induction pre with
  | nil => simp [validateArchitectures, hx]
  | cons y rest ih =>
    have hy : y.Validate = none := hpre y (List.mem_cons_self _ _)
    have hrest : ∀ z ∈ rest, z.Validate = none :=
      fun z hz => hpre z (List.mem_cons_of_mem _ hz)
    simp only [List.cons_append, validateArchitectures, hy]
    exact ih hrest

/-- A failing loop stops at some architecture: everything before it is valid and
the error is that architecture's, wrapped with its name. -/
theorem validateArchitectures_some (l : List Architecture) (msg : String)
    (h : validateArchitectures l = some msg) :
    ∃ pre x post e, l = pre ++ x :: post ∧ (∀ y ∈ pre, y.Validate = none) ∧
      x.Validate = some e ∧ msg = "invalid architecture " ++ x.Name ++ ": " ++ e := by
  induction l with
  | nil => simp [validateArchitectures] at h
  | cons y rest ih =>
    unfold validateArchitectures at h
    cases hy : y.Validate with
    | some e =>
      rw [hy] at h
      refine ⟨[], y, rest, e, rfl, by simp, hy, ?_⟩
      simpa using h.symm
    | none =>
      rw [hy] at h
      obtain ⟨pre, x, post, e, hl, hpre, hx, hmsg⟩ := ih h
      refine ⟨y :: pre, x, post, e, by simp [hl], ?_, hx, hmsg⟩
      intro z hz
      rcases List.mem_cons.mp hz with rfl | hz
      · exact hy
      · exact hpre z hz

theorem firstViolated_reported (x : Architecture) :
    firstViolated (reportedArchitectureChecks x) =
      x.Validate.map (fun e => "invalid architecture " ++ x.Name ++ ": " ++ e) := by
  rw [architecture_validate_eq_firstViolated]
  unfold firstViolated reportedArchitectureChecks architectureChecks
  by_cases h1 : x.Name = "" <;> by_cases h2 : x.Family = "" <;>
    by_cases h3 : x.InstanceTypes = [] <;> by_cases h4 : x.BaseImage = "" <;>
    simp [h1, h2, h3, h4, List.find?]

theorem validateArchitectures_eq_firstViolated (l : List Architecture) :
    validateArchitectures l = firstViolated (l.flatMap reportedArchitectureChecks) := by
  induction l with
  | nil => simp [validateArchitectures, firstViolated]
  | cons x rest ih =>
    have hx := firstViolated_reported x
    unfold firstViolated at hx ih ⊢
    rw [List.flatMap_cons, List.find?_append]
    unfold validateArchitectures
    cases hv : x.Validate with
    | some e =>
      rw [hv] at hx
      simp only [Option.map_some', Option.map_eq_some'] at hx
      obtain ⟨c, hc, hc2⟩ := hx
      simp [hc, hc2]
    | none =>
      rw [hv] at hx
      simp only [Option.map_none', Option.map_eq_none'] at hx
      simp [hx, ih]

theorem validate_of_topLevelOk (a : Application) (h : topLevelOk a) :
    a.Validate = validateArchitectures a.Compute.Architectures := by
  obtain ⟨h1, h2, h3, h4, h5⟩ := h
  unfold Application.Validate
  simp [h1, h2, h3, h4, h5]

theorem mentions_wrapped_name (n r : String) :
    mentions ("invalid architecture " ++ n ++ ": " ++ r) n := by
  unfold mentions
  refine ⟨"invalid architecture ".data, (": " ++ r).data, ?_⟩
  simp [String.data_append]

/-! ## Validation: the claims -/

/-- C1: `Application.Validate` succeeds if and only if Name, Version and
PlatformVersion are non-empty, Variants is non-empty, Compute.Architectures is
non-empty, and every architecture has a non-empty Name, Family, InstanceTypes list
and BaseImage. -/
theorem validate_succeeds_iff (a : Application) :
    a.Validate = none ↔
      a.Name ≠ "" ∧ a.Version ≠ "" ∧ a.PlatformVersion ≠ "" ∧ a.Variants ≠ [] ∧
        a.Compute.Architectures ≠ [] ∧
        ∀ arch ∈ a.Compute.Architectures,
          arch.Name ≠ "" ∧ arch.Family ≠ "" ∧ arch.InstanceTypes ≠ [] ∧
            arch.BaseImage ≠ "" := by
  have harch : validateArchitectures a.Compute.Architectures = none ↔
      ∀ arch ∈ a.Compute.Architectures,
        arch.Name ≠ "" ∧ arch.Family ≠ "" ∧ arch.InstanceTypes ≠ [] ∧
          arch.BaseImage ≠ "" := by
    rw [validateArchitectures_none_iff]
    exact forall₂_congr (fun x _ => architecture_validate_none_iff x)
  unfold Application.Validate
  by_cases h1 : a.Name = "" <;> by_cases h2 : a.Version = "" <;>
    by_cases h3 : a.PlatformVersion = "" <;> by_cases h4 : a.Variants = [] <;>
    by_cases h5 : a.Compute.Architectures = [] <;>
    simp only [h1, h2, h3, h4, h5, List.length_nil, List.length_eq_zero, if_true, if_false,
      ne_eq, not_true_eq_false, not_false_eq_true, false_and, and_false, true_and,
      reduceCtorEq]
  exact harch

/-- C2: `Application.Validate` is fail-fast in a fixed order: its result is the
message of the first violated check in the order name, version, platform_version,
variants, architectures, then each architecture in sequence (name, family, instance
types, base_image).  In particular an empty Name yields exactly "name is required",
and the architecture reported is the earliest invalid one. -/
theorem validate_fail_fast (a : Application) :
    a.Validate = firstViolated (orderedChecks a) ∧
      (a.Name = "" → a.Validate = some "name is required") ∧
      (∀ (pre post : List Architecture) (x : Architecture) (e : String),
        topLevelOk a → a.Compute.Architectures = pre ++ x :: post →
          (∀ y ∈ pre, y.Validate = none) → x.Validate = some e →
            a.Validate = some ("invalid architecture " ++ x.Name ++ ": " ++ e)) := by
  refine ⟨?_, ?_, ?_⟩
  · have hloop := validateArchitectures_eq_firstViolated a.Compute.Architectures
    unfold firstViolated at hloop ⊢
    unfold Application.Validate orderedChecks applicationChecks
    rw [List.find?_append]
    generalize a.Compute.Architectures.flatMap reportedArchitectureChecks = tail at hloop ⊢
    generalize validateArchitectures a.Compute.Architectures = loop at hloop ⊢
    by_cases h1 : a.Name = "" <;> by_cases h2 : a.Version = "" <;>
      by_cases h3 : a.PlatformVersion = "" <;> by_cases h4 : a.Variants = [] <;>
      by_cases h5 : a.Compute.Architectures = [] <;>
      simp [h1, h2, h3, h4, h5, List.find?, hloop]
  · intro h
    unfold Application.Validate
    simp [h]
  · intro pre post x e htop hsplit hpre hx
    rw [validate_of_topLevelOk a htop, hsplit]
    exact validateArchitectures_first pre post x e hpre hx

/-- C2, at a concrete input: of two invalid architectures after a valid one, the
earlier is the one reported. -/
theorem validate_fail_fast_witness :
    appTwoInvalid.Validate = some "invalid architecture c7i: family is required" :=
  (validate_fail_fast appTwoInvalid).2.2 [archC7a] [archNoImage] archNoFamily
    "family is required" (by decide) rfl (by decide) (by decide)

/-- C3 as stated fails: with Name and Version both empty the message is
"name is required", which does not name the missing version. -/
theorem validate_names_every_missing_field_counterexample :
    appNoNameNoVersion.Version = "" ∧
      appNoNameNoVersion.Validate = some "name is required" ∧
      ¬ mentions "name is required" "version" := by
  decide

/-- C3, amended: when any of Name, Version, PlatformVersion, Variants,
Compute.Architectures is empty, `Application.Validate` fails, and the message is
that of the first missing one in this order, which it names. -/
theorem validate_names_first_missing_field (a : Application) :
    ((a.Name = "" ∨ a.Version = "" ∨ a.PlatformVersion = "" ∨ a.Variants = [] ∨
        a.Compute.Architectures = []) → ∃ msg, a.Validate = some msg) ∧
      (a.Name = "" →
        a.Validate = some "name is required" ∧ mentions "name is required" "name") ∧
      (a.Name ≠ "" → a.Version = "" →
        a.Validate = some "version is required" ∧
          mentions "version is required" "version") ∧
      (a.Name ≠ "" → a.Version ≠ "" → a.PlatformVersion = "" →
        a.Validate = some "platform_version is required" ∧
          mentions "platform_version is required" "platform_version") ∧
      (a.Name ≠ "" → a.Version ≠ "" → a.PlatformVersion ≠ "" → a.Variants = [] →
        a.Validate = some "at least one variant is required" ∧
          mentions "at least one variant is required" "variant") ∧
      (a.Name ≠ "" → a.Version ≠ "" → a.PlatformVersion ≠ "" → a.Variants ≠ [] →
        a.Compute.Architectures = [] →
        a.Validate = some "at least one architecture is required" ∧
          mentions "at least one architecture is required" "architecture") := by
  refine ⟨?_, ?_, ?_, ?_, ?_, ?_⟩
  · intro h
    unfold Application.Validate
    by_cases h1 : a.Name = "" <;> by_cases h2 : a.Version = "" <;>
      by_cases h3 : a.PlatformVersion = "" <;> by_cases h4 : a.Variants = [] <;>
      by_cases h5 : a.Compute.Architectures = [] <;>
      simp [h1, h2, h3, h4, h5] at h ⊢
  · intro h1
    exact ⟨by simp [Application.Validate, h1], by decide⟩
  · intro h1 h2
    exact ⟨by simp [Application.Validate, h1, h2], by decide⟩
  · intro h1 h2 h3
    exact ⟨by simp [Application.Validate, h1, h2, h3], by decide⟩
  · intro h1 h2 h3 h4
    exact ⟨by simp [Application.Validate, h1, h2, h3, h4], by decide⟩
  · intro h1 h2 h3 h4 h5
    exact ⟨by simp [Application.Validate, h1, h2, h3, h4, h5], by decide⟩

/-- C3, amended, at a concrete input: a specification with a name and no version
fails with a message naming the version. -/
theorem validate_names_first_missing_field_witness :
    appNoVersion.Validate = some "version is required" ∧
      mentions "version is required" "version" :=
  (validate_names_first_missing_field appNoVersion).2.2.1 (by decide) (by decide)

/-- C4 as stated fails: an unnamed architecture at index 1 is reported as
"invalid architecture : name is required", a message with no digit in it, and the
same message is produced when the unnamed architecture is at index 0; so no
positional identifier is given. -/
theorem validate_positional_identifier_counterexample :
    topLevelOk appUnnamedSecond ∧
      appUnnamedSecond.Compute.Architectures.get? 1 = some archZero ∧
      archZero.Name = "" ∧
      appUnnamedSecond.Validate = some "invalid architecture : name is required" ∧
      "invalid architecture : name is required".data.any Char.isDigit = false ∧
      appUnnamedFirst.Compute.Architectures.get? 0 = some archZero ∧
      appUnnamedFirst.Validate = appUnnamedSecond.Validate := by
  decide

/-- C4, amended: for every specification that passes the top-level checks and
contains an architecture with an empty Name, Family, InstanceTypes or BaseImage,
`Application.Validate` fails with "invalid architecture N: reason", where N is the
Name of the first invalid architecture of the sequence and reason is that
architecture's own validation message; the message contains N, and when N is empty
it is "invalid architecture : name is required", with no position in it. -/
theorem validate_identifies_first_invalid_architecture (a : Application)
    (x : Architecture) (htop : topLevelOk a) (hmem : x ∈ a.Compute.Architectures)
    (hbad : x.Name = "" ∨ x.Family = "" ∨ x.InstanceTypes = [] ∨ x.BaseImage = "") :
    ∃ pre y post reason,
      a.Compute.Architectures = pre ++ y :: post ∧
        (∀ z ∈ pre, z.Validate = none) ∧
        y.Validate = some reason ∧
        a.Validate = some ("invalid architecture " ++ y.Name ++ ": " ++ reason) ∧
        mentions ("invalid architecture " ++ y.Name ++ ": " ++ reason) y.Name ∧
        (y.Name = "" → a.Validate = some "invalid architecture : name is required") := by
  have hxbad : x.Validate ≠ none := by
    rw [Ne, architecture_validate_none_iff]
    tauto
  have hloop : validateArchitectures a.Compute.Architectures ≠ none := by
    rw [Ne, validateArchitectures_none_iff]
    intro hall
    exact hxbad (hall x hmem)
  obtain ⟨msg, hmsg⟩ := Option.ne_none_iff_exists'.mp hloop
  obtain ⟨pre, y, post, reason, hsplit, hpre, hy, hmsgeq⟩ :=
    validateArchitectures_some _ _ hmsg
  have hval : a.Validate = some ("invalid architecture " ++ y.Name ++ ": " ++ reason) := by
    rw [validate_of_topLevelOk a htop, hmsg, hmsgeq]
  refine ⟨pre, y, post, reason, hsplit, hpre, hy, hval, mentions_wrapped_name _ _, ?_⟩
  intro hname
  have hreason : reason = "name is required" := by
    unfold Architecture.Validate at hy
    simpa [hname] using hy.symm
  rw [hval, hname, hreason]
  rfl

/-- C4, amended, at a concrete input: the unnamed architecture in second position
is the first invalid one and is reported by its empty name. -/
theorem validate_identifies_first_invalid_architecture_witness :
    ∃ pre y post reason,
      appUnnamedSecond.Compute.Architectures = pre ++ y :: post ∧
        (∀ z ∈ pre, z.Validate = none) ∧
        y.Validate = some reason ∧
        appUnnamedSecond.Validate =
          some ("invalid architecture " ++ y.Name ++ ": " ++ reason) ∧
        mentions ("invalid architecture " ++ y.Name ++ ": " ++ reason) y.Name ∧
        (y.Name = "" →
          appUnnamedSecond.Validate = some "invalid architecture : name is required") :=
  validate_identifies_first_invalid_architecture appUnnamedSecond archZero (by decide)
    (by decide) (by decide)

/-- C5: `Architecture.Validate` succeeds if and only if Name, Family and BaseImage
are non-empty and InstanceTypes has an element; on failure the message is that of
the first failing check in the order name, family, instance types, base_image; and
Generation, CompilerFlags and MathLibrary do not affect the result. -/
theorem architecture_validate_spec (a : Architecture) :
    (a.Validate = none ↔
        a.Name ≠ "" ∧ a.Family ≠ "" ∧ 1 ≤ a.InstanceTypes.length ∧ a.BaseImage ≠ "") ∧
      (a.Name = "" → a.Validate = some "name is required") ∧
      (a.Name ≠ "" → a.Family = "" → a.Validate = some "family is required") ∧
      (a.Name ≠ "" → a.Family ≠ "" → a.InstanceTypes.length = 0 →
        a.Validate = some "at least one instance type is required") ∧
      (a.Name ≠ "" → a.Family ≠ "" → a.InstanceTypes.length ≠ 0 → a.BaseImage = "" →
        a.Validate = some "base_image is required") ∧
      (∀ (generation : String) (compilerFlags : List String) (mathLibrary : MathLibrary),
        Architecture.Validate
            { a with Generation := generation, CompilerFlags := compilerFlags,
                     MathLibrary := mathLibrary } = a.Validate) := by
  refine ⟨?_, ?_, ?_, ?_, ?_, ?_⟩
  · rw [architecture_validate_none_iff, Nat.one_le_iff_ne_zero]
    simp [List.length_eq_zero]
  · intro h1
    simp [Architecture.Validate, h1]
  · intro h1 h2
    simp [Architecture.Validate, h1, h2]
  · intro h1 h2 h3
    simp [Architecture.Validate, h1, h2, h3]
  · intro h1 h2 h3 h4
    simp [Architecture.Validate, h1, h2, h3, h4]
  · intro generation compilerFlags mathLibrary
    rfl

/-- C5, at a concrete input: an architecture with neither family nor instance types
reports the family. -/
theorem architecture_validate_spec_witness :
    Architecture.Validate ⟨"c7i", "", "", [], [], sampleMath, ""⟩ =
      some "family is required" :=
  (architecture_validate_spec ⟨"c7i", "", "", [], [], sampleMath, ""⟩).2.2.1
    (by decide) (by decide)

/-! ## Lookup: shared lemmas -/

theorem find_of_filter_singleton {α : Type} (p : α → Bool) (l : List α) (e : α)
    (h : l.filter p = [e]) : l.find? p = some e := by
  induction l with
  | nil => simp at h
  | cons x rest ih =>
    rw [List.filter_cons] at h
    rw [List.find?_cons]
    cases hp : p x with
    | true =>
      rw [hp] at h
      simp only [if_true, List.cons.injEq] at h
      rw [h.1]
    | false =>
      rw [hp] at h
      simp only [Bool.false_eq_true, if_false] at h
      exact ih h

theorem find_of_first_index {α : Type} (p : α → Bool) (l : List α) (i : Nat) (e : α)
    (hi : l[i]? = some e) (he : p e = true)
    (hfirst : ∀ j y, j < i → l[j]? = some y → p y = false) : l.find? p = some e := by
  induction l generalizing i with
  | nil => simp at hi
  | cons x rest ih =>
    rw [List.find?_cons]
    cases i with
    | zero =>
      simp only [List.getElem?_cons_zero, Option.some.injEq] at hi
      rw [hi, he]
    | succ k =>
      have hx : p x = false := hfirst 0 x (Nat.succ_pos k) (by simp)
      rw [hx]
      rw [List.getElem?_cons_succ] at hi
      refine ih k hi ?_
      intro j y hj hy
      exact hfirst (j + 1) y (Nat.succ_lt_succ hj) (by simpa using hy)

theorem find_append_of_first {α : Type} (p : α → Bool) (pre post : List α) (e : α)
    (hpre : ∀ y ∈ pre, p y = false) (he : p e = true) :
    (pre ++ e :: post).find? p = some e := by
  induction pre with
  | nil => simp [he]
  | cons y rest ih =>
    have hy : p y = false := hpre y (List.mem_cons_self _ _)
    simp only [List.cons_append, List.find?_cons, hy]
    exact ih (fun z hz => hpre z (List.mem_cons_of_mem _ hz))

theorem lookupArchitecture_eq_find (n : String) (l : List Architecture) :
    lookupArchitecture n l =
      match l.find? (fun x => decide (x.Name = n)) with
      | some x => (some x, none)
      | none => (none, some ("architecture " ++ n ++ " not found")) := by
  induction l with
  | nil => rfl
  | cons x rest ih =>
    unfold lookupArchitecture
    by_cases h : x.Name = n
    · simp [h]
    · simp [h, ih]

theorem lookupVariant_eq_find (n : String) (l : List Variant) :
    lookupVariant n l =
      match l.find? (fun x => decide (x.Name = n)) with
      | some x => (some x, none)
      | none => (none, some ("variant " ++ n ++ " not found")) := by
  induction l with
  | nil => rfl
  | cons x rest ih =>
    unfold lookupVariant
    by_cases h : x.Name = n
    · simp [h]
    · simp [h, ih]

theorem lookupEnvironment_eq_find (n : String) (l : List Environment) :
    lookupEnvironment n l =
      match l.find? (fun x => decide (x.Name = n)) with
      | some x => (some x, none)
      | none => (none, some ("environment " ++ n ++ " not found")) := by
  induction l with
  | nil => rfl
  | cons x rest ih =>
    unfold lookupEnvironment
    by_cases h : x.Name = n
    · simp [h]
    · simp [h, ih]

theorem find_name_none_iff {α : Type} (name : α → String) (n : String) (l : List α) :
    l.find? (fun x => decide (name x = n)) = none ↔ ∀ x ∈ l, name x ≠ n := by
  rw [List.find?_eq_none]
  simp

theorem mentions_middle (pre n post : String) : mentions (pre ++ n ++ post) n := by
  unfold mentions
  exact ⟨pre.data, post.data, by simp [String.data_append]⟩

/-! ## Lookup: the claims -/

/-- C6: when exactly one entry of the sequence has a Name equal to the query,
GetArchitecture / GetVariant / GetEnvironment return no error and that entry. -/
theorem lookup_unique_entry (a : Application) (n : String) :
    (∀ e, a.Compute.Architectures.filter (fun x => decide (x.Name = n)) = [e] →
        a.GetArchitecture n = (some e, none)) ∧
      (∀ e, a.Variants.filter (fun x => decide (x.Name = n)) = [e] →
        a.GetVariant n = (some e, none)) ∧
      (∀ e, a.Environments.filter (fun x => decide (x.Name = n)) = [e] →
        a.GetEnvironment n = (some e, none)) := by
  refine ⟨?_, ?_, ?_⟩
  · intro e h
    unfold Application.GetArchitecture
    rw [lookupArchitecture_eq_find, find_of_filter_singleton _ _ e h]
  · intro e h
    unfold Application.GetVariant
    rw [lookupVariant_eq_find, find_of_filter_singleton _ _ e h]
  · intro e h
    unfold Application.GetEnvironment
    rw [lookupEnvironment_eq_find, find_of_filter_singleton _ _ e h]

/-- C6, at a concrete input: each of the three lookups returns the one entry that
carries the queried name. -/
theorem lookup_unique_entry_witness :
    appLookup.GetArchitecture "c7a" = (some archC7a, none) ∧
      appLookup.GetVariant "gchp" = (some variantGchp, none) ∧
      appLookup.GetEnvironment "prod" = (some envProd, none) :=
  ⟨(lookup_unique_entry appLookup "c7a").1 archC7a (by decide),
   (lookup_unique_entry appLookup "gchp").2.1 variantGchp (by decide),
   (lookup_unique_entry appLookup "prod").2.2 envProd (by decide)⟩

/-- C7: GetArchitecture / GetVariant / GetEnvironment return an error, and return
no entry, if and only if no entry of the sequence has a Name equal to the query
(whole-string, case-sensitive equality); every lookup on an empty sequence fails. -/
theorem lookup_fails_iff_absent (a : Application) (n : String) :
    (((a.GetArchitecture n).2 ≠ none ↔ ∀ x ∈ a.Compute.Architectures, x.Name ≠ n) ∧
        ((a.GetArchitecture n).1 = none ↔ ∀ x ∈ a.Compute.Architectures, x.Name ≠ n)) ∧
      (((a.GetVariant n).2 ≠ none ↔ ∀ x ∈ a.Variants, x.Name ≠ n) ∧
        ((a.GetVariant n).1 = none ↔ ∀ x ∈ a.Variants, x.Name ≠ n)) ∧
      (((a.GetEnvironment n).2 ≠ none ↔ ∀ x ∈ a.Environments, x.Name ≠ n) ∧
        ((a.GetEnvironment n).1 = none ↔ ∀ x ∈ a.Environments, x.Name ≠ n)) ∧
      (a.Compute.Architectures = [] →
        (a.GetArchitecture n).1 = none ∧ (a.GetArchitecture n).2 ≠ none) ∧
      (a.Variants = [] → (a.GetVariant n).1 = none ∧ (a.GetVariant n).2 ≠ none) ∧
      (a.Environments = [] →
        (a.GetEnvironment n).1 = none ∧ (a.GetEnvironment n).2 ≠ none) := by
  refine ⟨⟨?_, ?_⟩, ⟨?_, ?_⟩, ⟨?_, ?_⟩, ?_, ?_, ?_⟩
  · unfold Application.GetArchitecture
    rw [lookupArchitecture_eq_find, ← find_name_none_iff Architecture.Name]
    cases List.find? (fun x => decide (x.Name = n)) a.Compute.Architectures <;> simp
  · unfold Application.GetArchitecture
    rw [lookupArchitecture_eq_find, ← find_name_none_iff Architecture.Name]
    cases List.find? (fun x => decide (x.Name = n)) a.Compute.Architectures <;> simp
  · unfold Application.GetVariant
    rw [lookupVariant_eq_find, ← find_name_none_iff Variant.Name]
    cases List.find? (fun x => decide (x.Name = n)) a.Variants <;> simp
  · unfold Application.GetVariant
    rw [lookupVariant_eq_find, ← find_name_none_iff Variant.Name]
    cases List.find? (fun x => decide (x.Name = n)) a.Variants <;> simp
  · unfold Application.GetEnvironment
    rw [lookupEnvironment_eq_find, ← find_name_none_iff Environment.Name]
    cases List.find? (fun x => decide (x.Name = n)) a.Environments <;> simp
  · unfold Application.GetEnvironment
    rw [lookupEnvironment_eq_find, ← find_name_none_iff Environment.Name]
    cases List.find? (fun x => decide (x.Name = n)) a.Environments <;> simp
  · intro h
    unfold Application.GetArchitecture
    rw [h]
    simp [lookupArchitecture]
  · intro h
    unfold Application.GetVariant
    rw [h]
    simp [lookupVariant]
  · intro h
    unfold Application.GetEnvironment
    rw [h]
    simp [lookupEnvironment]

/-- C7, at concrete inputs: with the single architecture `c7a`, the queries `C7A`
(letter case), the empty string and `c7` (a prefix) all fail, and a lookup of an
environment in a specification without environments fails. -/
theorem lookup_fails_iff_absent_witness :
    (geosChem.GetArchitecture "C7A").2 ≠ none ∧
      (geosChem.GetArchitecture "").2 ≠ none ∧
      (geosChem.GetArchitecture "c7").1 = none ∧
      ((geosChem.GetEnvironment "prod").1 = none ∧
        (geosChem.GetEnvironment "prod").2 ≠ none) :=
  ⟨(lookup_fails_iff_absent geosChem "C7A").1.1.mpr (by decide),
   (lookup_fails_iff_absent geosChem "").1.1.mpr (by decide),
   (lookup_fails_iff_absent geosChem "c7").1.2.mpr (by decide),
   (lookup_fails_iff_absent geosChem "prod").2.2.2.2.2 (by decide)⟩

/-- C8: when several entries share the queried name, the lookups return the entry
of smallest index among them, and the entries after the first match do not
influence the result. -/
theorem lookup_first_match_wins (a : Application) (n : String) :
    (∀ (i : Nat) (e : Architecture), a.Compute.Architectures[i]? = some e → e.Name = n →
        (∀ j y, j < i → a.Compute.Architectures[j]? = some y → y.Name ≠ n) →
        a.GetArchitecture n = (some e, none)) ∧
      (∀ (i : Nat) (e : Variant), a.Variants[i]? = some e → e.Name = n →
        (∀ j y, j < i → a.Variants[j]? = some y → y.Name ≠ n) →
        a.GetVariant n = (some e, none)) ∧
      (∀ (i : Nat) (e : Environment), a.Environments[i]? = some e → e.Name = n →
        (∀ j y, j < i → a.Environments[j]? = some y → y.Name ≠ n) →
        a.GetEnvironment n = (some e, none)) ∧
      (∀ (pre post other : List Architecture) (e : Architecture),
        (∀ y ∈ pre, y.Name ≠ n) → e.Name = n →
        lookupArchitecture n (pre ++ e :: post) = (some e, none) ∧
          lookupArchitecture n (pre ++ e :: other) = lookupArchitecture n (pre ++ e :: post)) ∧
      (∀ (pre post other : List Variant) (e : Variant),
        (∀ y ∈ pre, y.Name ≠ n) → e.Name = n →
        lookupVariant n (pre ++ e :: post) = (some e, none) ∧
          lookupVariant n (pre ++ e :: other) = lookupVariant n (pre ++ e :: post)) ∧
      (∀ (pre post other : List Environment) (e : Environment),
        (∀ y ∈ pre, y.Name ≠ n) → e.Name = n →
        lookupEnvironment n (pre ++ e :: post) = (some e, none) ∧
          lookupEnvironment n (pre ++ e :: other) =
            lookupEnvironment n (pre ++ e :: post)) := by
  refine ⟨?_, ?_, ?_, ?_, ?_, ?_⟩
  · intro i e hi he hfirst
    unfold Application.GetArchitecture
    rw [lookupArchitecture_eq_find,
      find_of_first_index _ _ i e hi (by simp [he])
        (fun j y hj hy => by simpa using hfirst j y hj hy)]
  · intro i e hi he hfirst
    unfold Application.GetVariant
    rw [lookupVariant_eq_find,
      find_of_first_index _ _ i e hi (by simp [he])
        (fun j y hj hy => by simpa using hfirst j y hj hy)]
  · intro i e hi he hfirst
    unfold Application.GetEnvironment
    rw [lookupEnvironment_eq_find,
      find_of_first_index _ _ i e hi (by simp [he])
        (fun j y hj hy => by simpa using hfirst j y hj hy)]
  · intro pre post other e hpre he
    have hfind : ∀ tail : List Architecture,
        lookupArchitecture n (pre ++ e :: tail) = (some e, none) := by
      intro tail
      rw [lookupArchitecture_eq_find,
        find_append_of_first _ pre tail e (fun y hy => by simpa using hpre y hy)
          (by simp [he])]
    exact ⟨hfind post, by rw [hfind other, hfind post]⟩
  · intro pre post other e hpre he
    have hfind : ∀ tail : List Variant,
        lookupVariant n (pre ++ e :: tail) = (some e, none) := by
      intro tail
      rw [lookupVariant_eq_find,
        find_append_of_first _ pre tail e (fun y hy => by simpa using hpre y hy)
          (by simp [he])]
    exact ⟨hfind post, by rw [hfind other, hfind post]⟩
  · intro pre post other e hpre he
    have hfind : ∀ tail : List Environment,
        lookupEnvironment n (pre ++ e :: tail) = (some e, none) := by
      intro tail
      rw [lookupEnvironment_eq_find,
        find_append_of_first _ pre tail e (fun y hy => by simpa using hpre y hy)
          (by simp [he])]
    exact ⟨hfind post, by rw [hfind other, hfind post]⟩

/-- C8, at a concrete input: of two architectures named `c7a`, at indices 1 and 2,
the lookup returns the one at index 1. -/
theorem lookup_first_match_wins_witness :
    appDuplicates.Compute.Architectures[2]? = some archC7aShadow ∧
      archC7aShadow.Name = "c7a" ∧
      appDuplicates.GetArchitecture "c7a" = (some archC7a, none) :=
  ⟨by decide, by decide,
   (lookup_first_match_wins appDuplicates "c7a").1 1 archC7a (by decide) (by decide)
     (by
       intro j y hj hy
       have hj0 : j = 0 := by omega
       subst hj0
       have hy0 : y = archNoFamily := by
         simpa [appDuplicates, mkApp] using hy.symm
       rw [hy0]
       decide)⟩

/-- C9: a lookup with no match returns no entry and the error
"architecture n not found", "variant n not found" or "environment n not found";
each message contains the requested name and starts with the entity kind, the three
differ pairwise for the same n, and no lookup returns an entry together with an
error. -/
theorem lookup_not_found_error (a : Application) (n : String) :
    ((∀ x ∈ a.Compute.Architectures, x.Name ≠ n) →
        a.GetArchitecture n = (none, some ("architecture " ++ n ++ " not found"))) ∧
      ((∀ x ∈ a.Variants, x.Name ≠ n) →
        a.GetVariant n = (none, some ("variant " ++ n ++ " not found"))) ∧
      ((∀ x ∈ a.Environments, x.Name ≠ n) →
        a.GetEnvironment n = (none, some ("environment " ++ n ++ " not found"))) ∧
      (mentions ("architecture " ++ n ++ " not found") n ∧
        mentions ("variant " ++ n ++ " not found") n ∧
        mentions ("environment " ++ n ++ " not found") n) ∧
      (hasPrefix ("architecture " ++ n ++ " not found") "architecture " ∧
        hasPrefix ("variant " ++ n ++ " not found") "variant " ∧
        hasPrefix ("environment " ++ n ++ " not found") "environment ") ∧
      ("architecture " ++ n ++ " not found" ≠ "variant " ++ n ++ " not found" ∧
        "architecture " ++ n ++ " not found" ≠ "environment " ++ n ++ " not found" ∧
        "variant " ++ n ++ " not found" ≠ "environment " ++ n ++ " not found") ∧
      ((a.GetArchitecture n).2 ≠ none → (a.GetArchitecture n).1 = none) ∧
      ((a.GetVariant n).2 ≠ none → (a.GetVariant n).1 = none) ∧
      ((a.GetEnvironment n).2 ≠ none → (a.GetEnvironment n).1 = none) := by
  refine ⟨?_, ?_, ?_, ⟨?_, ?_, ?_⟩, ⟨?_, ?_, ?_⟩, ⟨?_, ?_, ?_⟩, ?_, ?_, ?_⟩
  · intro h
    unfold Application.GetArchitecture
    rw [lookupArchitecture_eq_find, (find_name_none_iff Architecture.Name n _).mpr h]
  · intro h
    unfold Application.GetVariant
    rw [lookupVariant_eq_find, (find_name_none_iff Variant.Name n _).mpr h]
  · intro h
    unfold Application.GetEnvironment
    rw [lookupEnvironment_eq_find, (find_name_none_iff Environment.Name n _).mpr h]
  · exact mentions_middle _ _ _
  · exact mentions_middle _ _ _
  · exact mentions_middle _ _ _
  · unfold hasPrefix
    simp [String.data_append]
  · unfold hasPrefix
    simp [String.data_append]
  · unfold hasPrefix
    simp [String.data_append]
  · intro h
    have := congrArg String.data h
    simp at this
  · intro h
    have := congrArg String.data h
    simp at this
  · intro h
    have := congrArg String.data h
    simp at this
  · unfold Application.GetArchitecture
    rw [lookupArchitecture_eq_find]
    cases List.find? (fun x => decide (x.Name = n)) a.Compute.Architectures <;> simp
  · unfold Application.GetVariant
    rw [lookupVariant_eq_find]
    cases List.find? (fun x => decide (x.Name = n)) a.Variants <;> simp
  · unfold Application.GetEnvironment
    rw [lookupEnvironment_eq_find]
    cases List.find? (fun x => decide (x.Name = n)) a.Environments <;> simp

/-- C9, at a concrete input: the three lookups of the absent name `c7a.xlarge`. -/
theorem lookup_not_found_error_witness :
    appLookup.GetArchitecture "c7a.xlarge" =
        (none, some "architecture c7a.xlarge not found") ∧
      appLookup.GetVariant "c7a.xlarge" = (none, some "variant c7a.xlarge not found") ∧
      appLookup.GetEnvironment "c7a.xlarge" =
        (none, some "environment c7a.xlarge not found") :=
  ⟨(lookup_not_found_error appLookup "c7a.xlarge").1 (by decide),
   (lookup_not_found_error appLookup "c7a.xlarge").2.1 (by decide),
   (lookup_not_found_error appLookup "c7a.xlarge").2.2.1 (by decide)⟩

/-! ## Loading: the claims -/

/-- The four outcomes of `LoadApplication`, by the stage that ends the pipeline. -/
theorem loadApplication_cases {Bytes : Type} (join : String → String → String)
    (readFile : String → Bytes × GoError) (unmarshal : Bytes → Application × GoError)
    (path : String) :
    (∃ e, (readFile (join path "app.yaml")).2 = some e ∧
        LoadApplication join readFile unmarshal path =
          (none, some ("failed to read app.yaml: " ++ e))) ∨
      (∃ e, (readFile (join path "app.yaml")).2 = none ∧
        (unmarshal (readFile (join path "app.yaml")).1).2 = some e ∧
        LoadApplication join readFile unmarshal path =
          (none, some ("failed to parse app.yaml: " ++ e))) ∨
      (∃ e, (readFile (join path "app.yaml")).2 = none ∧
        (unmarshal (readFile (join path "app.yaml")).1).2 = none ∧
        (unmarshal (readFile (join path "app.yaml")).1).1.Validate = some e ∧
        LoadApplication join readFile unmarshal path =
          (none, some ("invalid application specification: " ++ e))) ∨
      ((readFile (join path "app.yaml")).2 = none ∧
        (unmarshal (readFile (join path "app.yaml")).1).2 = none ∧
        (unmarshal (readFile (join path "app.yaml")).1).1.Validate = none ∧
        LoadApplication join readFile unmarshal path =
          (some (unmarshal (readFile (join path "app.yaml")).1).1, none)) := by
  rcases hr : readFile (join path "app.yaml") with ⟨data, rerr⟩
  cases rerr with
  | some e => exact Or.inl ⟨e, rfl, by simp [LoadApplication, hr]⟩
  | none =>
    rcases hu : unmarshal data with ⟨app, uerr⟩
    cases uerr with
    | some e =>
      exact Or.inr (Or.inl ⟨e, rfl, by simp [hu], by simp [LoadApplication, hr, hu]⟩)
    | none =>
      cases hv : app.Validate with
      | some e =>
        exact Or.inr (Or.inr (Or.inl
          ⟨e, rfl, by simp [hu], by simp [hu, hv], by simp [LoadApplication, hr, hu, hv]⟩))
      | none =>
        exact Or.inr (Or.inr (Or.inr
          ⟨rfl, by simp [hu], by simp [hu, hv], by simp [LoadApplication, hr, hu, hv]⟩))

/-- C10: `LoadApplication` is the pipeline read of `join path "app.yaml"`, decode,
`Validate`.  A failed read gives "failed to read app.yaml: " and the read error,
whatever the decoder is; a failed decode after a successful read gives
"failed to parse app.yaml: " and the decoder's error; a failed validation after
both gives "invalid application specification: " and the error of `Validate`;
otherwise the decoded application is returned.  The error starts with each of the
three texts exactly in the corresponding case, and the three texts differ
pairwise. -/
theorem loadApplication_failure_kinds {Bytes : Type} (join : String → String → String)
    (readFile : String → Bytes × GoError) (unmarshal : Bytes → Application × GoError)
    (path : String) :
    (∀ e, (readFile (join path "app.yaml")).2 = some e →
        ∀ anyUnmarshal : Bytes → Application × GoError,
          LoadApplication join readFile anyUnmarshal path =
            (none, some ("failed to read app.yaml: " ++ e))) ∧
      (∀ e, (readFile (join path "app.yaml")).2 = none →
        (unmarshal (readFile (join path "app.yaml")).1).2 = some e →
        LoadApplication join readFile unmarshal path =
          (none, some ("failed to parse app.yaml: " ++ e))) ∧
      (∀ e, (readFile (join path "app.yaml")).2 = none →
        (unmarshal (readFile (join path "app.yaml")).1).2 = none →
        (unmarshal (readFile (join path "app.yaml")).1).1.Validate = some e →
        LoadApplication join readFile unmarshal path =
          (none, some ("invalid application specification: " ++ e))) ∧
      ((readFile (join path "app.yaml")).2 = none →
        (unmarshal (readFile (join path "app.yaml")).1).2 = none →
        (unmarshal (readFile (join path "app.yaml")).1).1.Validate = none →
        LoadApplication join readFile unmarshal path =
          (some (unmarshal (readFile (join path "app.yaml")).1).1, none)) ∧
      ((∃ msg, (LoadApplication join readFile unmarshal path).2 = some msg ∧
          hasPrefix msg "failed to read app.yaml: ") ↔
        (readFile (join path "app.yaml")).2 ≠ none) ∧
      ((∃ msg, (LoadApplication join readFile unmarshal path).2 = some msg ∧
          hasPrefix msg "failed to parse app.yaml: ") ↔
        ((readFile (join path "app.yaml")).2 = none ∧
          (unmarshal (readFile (join path "app.yaml")).1).2 ≠ none)) ∧
      ((∃ msg, (LoadApplication join readFile unmarshal path).2 = some msg ∧
          hasPrefix msg "invalid application specification: ") ↔
        ((readFile (join path "app.yaml")).2 = none ∧
          (unmarshal (readFile (join path "app.yaml")).1).2 = none ∧
          (unmarshal (readFile (join path "app.yaml")).1).1.Validate ≠ none)) ∧
      ("failed to read app.yaml: " ≠ "failed to parse app.yaml: " ∧
        "failed to read app.yaml: " ≠ "invalid application specification: " ∧
        "failed to parse app.yaml: " ≠ "invalid application specification: ") := by
  refine ⟨?_, ?_, ?_, ?_, ?_, ?_, ?_, by decide⟩
  · intro e he anyUnmarshal
    rcases loadApplication_cases join readFile anyUnmarshal path with
      ⟨e1, h1, hL⟩ | ⟨e1, h1, _, _⟩ | ⟨e1, h1, _, _, _⟩ | ⟨h1, _, _, _⟩
    · rw [hL]
      simp_all
    all_goals simp_all
  all_goals
    rcases loadApplication_cases join readFile unmarshal path with
      ⟨e1, h1, hL⟩ | ⟨e1, h1, h2, hL⟩ | ⟨e1, h1, h2, h3, hL⟩ | ⟨h1, h2, h3, hL⟩ <;>
    simp_all [hasPrefix, String.data_append]

/-- C10, at concrete inputs: a missing document, a document the decoder rejects
and a document that decodes to an invalid application fail with the three
different kinds of message, and the sample document loads. -/
theorem loadApplication_failure_kinds_witness :
    LoadApplication sampleJoin sampleReadFile sampleUnmarshal "apps/wrf" =
        (none, some
          "failed to read app.yaml: open apps/wrf/app.yaml: no such file or directory") ∧
      LoadApplication sampleJoin (fun _ => ("name: [", none)) sampleUnmarshal "apps/wrf" =
        (none, some "failed to parse app.yaml: yaml: did not find expected key") ∧
      LoadApplication sampleJoin (fun _ => ("name: x", none))
          (fun _ => (appNoVersion, none)) "apps/wrf" =
        (none, some "invalid application specification: version is required") ∧
      LoadApplication sampleJoin sampleReadFile sampleUnmarshal "apps/geos-chem" =
        (some geosChem, none) :=
  ⟨(loadApplication_failure_kinds sampleJoin sampleReadFile sampleUnmarshal "apps/wrf").1
      "open apps/wrf/app.yaml: no such file or directory" (by decide) sampleUnmarshal,
   (loadApplication_failure_kinds sampleJoin (fun _ => ("name: [", none)) sampleUnmarshal
      "apps/wrf").2.1 "yaml: did not find expected key" (by decide) (by decide),
   (loadApplication_failure_kinds sampleJoin (fun _ => ("name: x", none))
      (fun _ => (appNoVersion, none)) "apps/wrf").2.2.1 "version is required"
      (by decide) (by decide) (by decide),
   (loadApplication_failure_kinds sampleJoin sampleReadFile sampleUnmarshal
      "apps/geos-chem").2.2.2.1 (by decide) (by decide) (by decide)⟩

/-- When the decoder returns, `LoadApplication` returns either an application and
no error, or an error and no application; a failed read, a failed decode and a
failed validation all return no application, whatever the decoder left in the
application it was filling. -/
theorem loadApplication_result_when_decoder_returns {Bytes : Type}
    (join : String → String → String) (readFile : String → Bytes × GoError)
    (unmarshal : Bytes → Application × GoError) (path : String) :
    (((LoadApplication join readFile unmarshal path).1 ≠ none ∧
          (LoadApplication join readFile unmarshal path).2 = none) ∨
        ((LoadApplication join readFile unmarshal path).1 = none ∧
          (LoadApplication join readFile unmarshal path).2 ≠ none)) ∧
      ((readFile (join path "app.yaml")).2 ≠ none →
        (LoadApplication join readFile unmarshal path).1 = none) ∧
      ((unmarshal (readFile (join path "app.yaml")).1).2 ≠ none →
        (LoadApplication join readFile unmarshal path).1 = none) ∧
      ((unmarshal (readFile (join path "app.yaml")).1).1.Validate ≠ none →
        (LoadApplication join readFile unmarshal path).1 = none) := by
  rcases loadApplication_cases join readFile unmarshal path with
    ⟨e1, h1, hL⟩ | ⟨e1, h1, h2, hL⟩ | ⟨e1, h1, h2, h3, hL⟩ | ⟨h1, h2, h3, hL⟩ <;>
  simp_all

/-- A decoder that fails after filling in name and version yields the parse error
and no application. -/
theorem loadApplication_result_when_decoder_returns_witness :
    (partialUnmarshal "name: geos-chem").1.Name = "geos-chem" ∧
      (LoadApplication sampleJoin sampleReadFile partialUnmarshal "apps/geos-chem").1 =
        none :=
  ⟨by decide,
   (loadApplication_result_when_decoder_returns sampleJoin sampleReadFile partialUnmarshal
      "apps/geos-chem").2.2.1 (by decide)⟩

/-- On the calls in which the decoder returns, `LoadApplicationRun` is
`LoadApplication`. -/
theorem loadApplicationRun_of_returns {Bytes : Type} (join : String → String → String)
    (readFile : String → Bytes × GoError) (unmarshal : Bytes → Application × GoError)
    (path : String) :
    LoadApplicationRun join readFile (fun data => Outcome.returned (unmarshal data)) path =
      Outcome.returned (LoadApplication join readFile unmarshal path) := by
  rcases hr : readFile (join path "app.yaml") with ⟨data, rerr⟩
  cases rerr with
  | some e => simp [LoadApplicationRun, LoadApplication, hr]
  | none =>
    rcases hu : unmarshal data with ⟨app, uerr⟩
    cases uerr with
    | some e => simp [LoadApplicationRun, LoadApplication, hr, hu]
    | none =>
      cases hv : app.Validate <;> simp [LoadApplicationRun, LoadApplication, hr, hu, hv]

/-- C11 fails on the code: when the read succeeds and the document has a mapping
under `storage.scratch`, the decoder panics on the key `type` that two fields of
`ScratchStorage` carry, and `LoadApplication` ends without returning: neither a
specification nor an error. -/
theorem loadApplication_panics_on_scratch {Bytes : Type}
    (join : String → String → String) (readFile : String → Bytes × GoError)
    (hasScratchMapping : Bytes → Bool) (decode : Bytes → Application × GoError)
    (path : String)
    (hread : (readFile (join path "app.yaml")).2 = none)
    (hscratch : hasScratchMapping (readFile (join path "app.yaml")).1 = true) :
    LoadApplicationRun join readFile (unmarshalApplication hasScratchMapping decode) path =
        Outcome.panicked "duplicated key \x27type\x27 in struct config.ScratchStorage" ∧
      ∀ result, LoadApplicationRun join readFile
        (unmarshalApplication hasScratchMapping decode) path ≠ Outcome.returned result := by
  have hpanic : LoadApplicationRun join readFile
      (unmarshalApplication hasScratchMapping decode) path =
        Outcome.panicked "duplicated key \x27type\x27 in struct config.ScratchStorage" := by
    rcases hr : readFile (join path "app.yaml") with ⟨data, rerr⟩
    rw [hr] at hread hscratch
    simp only at hread hscratch
    subst hread
    have hun : unmarshalApplication hasScratchMapping decode data =
        Outcome.panicked "duplicated key \x27type\x27 in struct config.ScratchStorage" := by
      unfold unmarshalApplication
      rw [if_pos hscratch]
      rfl
    simp [LoadApplicationRun, hr, hun]
  refine ⟨hpanic, ?_⟩
  intro result h
  rw [hpanic] at h
  cases h

/-- C11, at a concrete input: the worked example with a scratch block of type
`ebs`. -/
theorem loadApplication_panics_on_scratch_witness :
    LoadApplicationRun sampleJoin scratchReadFile
        (unmarshalApplication sampleHasScratch sampleUnmarshal) "apps/geos-chem" =
      Outcome.panicked "duplicated key \x27type\x27 in struct config.ScratchStorage" :=
  (loadApplication_panics_on_scratch sampleJoin scratchReadFile sampleHasScratch
    sampleUnmarshal "apps/geos-chem" (by decide) (by decide)).1

/-- C12: if `LoadApplication` returns an application, then it returns no error,
read and decode succeeded, the application is the decoder's output unchanged, and
`Validate` succeeds on it. -/
theorem loadApplication_returns_validated {Bytes : Type}
    (join : String → String → String) (readFile : String → Bytes × GoError)
    (unmarshal : Bytes → Application × GoError) (path : String) (app : Application)
    (h : (LoadApplication join readFile unmarshal path).1 = some app) :
    (LoadApplication join readFile unmarshal path).2 = none ∧
      (readFile (join path "app.yaml")).2 = none ∧
      (unmarshal (readFile (join path "app.yaml")).1).2 = none ∧
      app = (unmarshal (readFile (join path "app.yaml")).1).1 ∧
      app.Validate = none := by
  rcases loadApplication_cases join readFile unmarshal path with
    ⟨e1, h1, hL⟩ | ⟨e1, h1, h2, hL⟩ | ⟨e1, h1, h2, h3, hL⟩ | ⟨h1, h2, h3, hL⟩
  · rw [hL] at h
    simp at h
  · rw [hL] at h
    simp at h
  · rw [hL] at h
    simp at h
  · rw [hL] at h ⊢
    have happ : (unmarshal (readFile (join path "app.yaml")).1).1 = app := by
      simpa using h
    rw [← happ]
    exact ⟨rfl, h1, h2, rfl, h3⟩

/-- C12, at a concrete input: the sample document loads as the worked example,
which validates. -/
theorem loadApplication_returns_validated_witness :
    (LoadApplication sampleJoin sampleReadFile sampleUnmarshal "apps/geos-chem").1 =
        some geosChem ∧
      geosChem.Validate = none :=
  ⟨by decide,
   (loadApplication_returns_validated sampleJoin sampleReadFile sampleUnmarshal
      "apps/geos-chem" geosChem (by decide)).2.2.2.2⟩

/-! ## What validation reads, and lookup after validation -/

theorem architecture_validate_of_key (x y : Architecture) (h : archKey x = archKey y) :
    x.Validate = y.Validate := by
  unfold archKey at h
  simp only [Prod.mk.injEq, decide_eq_decide] at h
  obtain ⟨h1, h2, h3, h4⟩ := h
  unfold Architecture.Validate
  simp only [h1, h2, h4, List.length_eq_zero, h3]

theorem validateArchitectures_of_keys (l l2 : List Architecture)
    (h : l.map archKey = l2.map archKey) :
    validateArchitectures l = validateArchitectures l2 := by
  induction l generalizing l2 with
  | nil =>
    cases l2 with
    | nil => rfl
    | cons y rest => simp at h
  | cons x rest ih =>
    cases l2 with
    | nil => simp at h
    | cons y rest2 =>
      simp only [List.map_cons, List.cons.injEq] at h
      have hname : x.Name = y.Name := by
        have := congrArg Prod.fst h.1
        simpa [archKey] using this
      unfold validateArchitectures
      rw [architecture_validate_of_key x y h.1, hname, ih rest2 h.2]

theorem validate_none_loop (a : Application) (h : a.Validate = none) :
    validateArchitectures a.Compute.Architectures = none := by
  unfold Application.Validate at h
  by_cases h1 : a.Name = "" <;> by_cases h2 : a.Version = "" <;>
    by_cases h3 : a.PlatformVersion = "" <;> by_cases h4 : a.Variants = [] <;>
    by_cases h5 : a.Compute.Architectures = [] <;>
    simp [h1, h2, h3, h4, h5] at h
  exact h

/-- C13: `Application.Validate` reads only the required fields: two specifications
that agree on Name, Version, PlatformVersion, on whether Variants is empty, and on
the sequence of (Name, Family, emptiness of InstanceTypes, BaseImage) of their
architectures get the same result, whatever else they contain. -/
theorem validate_reads_required_fields_only (a b : Application)
    (hName : a.Name = b.Name) (hVersion : a.Version = b.Version)
    (hPlatform : a.PlatformVersion = b.PlatformVersion)
    (hVariants : a.Variants = [] ↔ b.Variants = [])
    (hArchs : a.Compute.Architectures.map archKey = b.Compute.Architectures.map archKey) :
    a.Validate = b.Validate := by
  have hloop := validateArchitectures_of_keys _ _ hArchs
  have hlen : a.Compute.Architectures.length = b.Compute.Architectures.length := by
    have := congrArg List.length hArchs
    simpa using this
  have hnil : a.Compute.Architectures = [] ↔ b.Compute.Architectures = [] := by
    rw [← List.length_eq_zero, hlen, List.length_eq_zero]
  unfold Application.Validate
  simp only [hName, hVersion, hPlatform, List.length_eq_zero, hVariants, hloop, hnil]

/-- C13, at a concrete input: the worked example and a specification with other
variants, instance types, batch, environment, licensing, GPU and networking blocks
get the same result. -/
theorem validate_reads_required_fields_only_witness :
    geosChem ≠ geosChemFull ∧ geosChem.Validate = geosChemFull.Validate :=
  ⟨by decide,
   validate_reads_required_fields_only geosChem geosChemFull (by decide) (by decide)
     (by decide) (by decide) (by decide)⟩

/-- C18: on a specification that validates, every declared architecture is found
by its name, and what is found carries that name and is itself valid (also when
names are duplicated); and the lookup of the empty name fails. -/
theorem validated_architectures_retrievable (a : Application)
    (hv : a.Validate = none) :
    (∀ x ∈ a.Compute.Architectures,
        ∃ y, a.GetArchitecture x.Name = (some y, none) ∧ y.Name = x.Name ∧
          y.Validate = none) ∧
      a.GetArchitecture "" = (none, some "architecture  not found") := by
  have hall := (validateArchitectures_none_iff _).mp (validate_none_loop a hv)
  constructor
  · intro x hx
    unfold Application.GetArchitecture
    rw [lookupArchitecture_eq_find]
    cases hf : List.find? (fun z => decide (z.Name = x.Name)) a.Compute.Architectures with
    | none =>
      have := (find_name_none_iff Architecture.Name x.Name _).mp hf x hx
      exact absurd rfl this
    | some y =>
      have hy : y.Name = x.Name := by simpa using List.find?_some hf
      exact ⟨y, rfl, hy, hall y (List.mem_of_find?_eq_some hf)⟩
  · unfold Application.GetArchitecture
    rw [lookupArchitecture_eq_find]
    have hnone : List.find? (fun z => decide (z.Name = "")) a.Compute.Architectures =
        none := by
      rw [find_name_none_iff Architecture.Name]
      intro x hx
      exact ((architecture_validate_none_iff x).mp (hall x hx)).1
    rw [hnone]
    rfl

/-- C18, at a concrete input: with two valid architectures named `c7a`, the lookup
of the second one's name returns a valid architecture of that name. -/
theorem validated_architectures_retrievable_witness :
    ∃ y, appShadowed.GetArchitecture archC7aShadow.Name = (some y, none) ∧
      y.Name = archC7aShadow.Name ∧ y.Validate = none :=
  (validated_architectures_retrievable appShadowed (by decide)).1 archC7aShadow
    (by decide)

/-! ## Serialized keys: the claim -/

/-- C17 fails on the code: in the record `ScratchStorage` the fields `Type` and
`VolumeType` both carry the key `type`, so the record's four fields have three
distinct keys and the key `type` maps to two fields; every other record of the
schema has pairwise distinct keys. -/
theorem scratchStorage_keys_collide :
    yamlKeys scratchStorageTags = ["type", "size_gb", "type", "iops"] ∧
      ¬ (yamlKeys scratchStorageTags).Nodup ∧
      (yamlKeys scratchStorageTags).dedup.length = 3 ∧
      fieldsOfKey scratchStorageTags "type" = ["Type", "VolumeType"] ∧
      (schemaTags.filter (fun r => decide (¬ (yamlKeys r.2).Nodup))).map Prod.fst =
        ["ScratchStorage"] := by
  decide

end Config

namespace Generator

/-! ## The scan of `ReplaceAll`: shared lemmas -/

theorem replaceFrom_skip (old new : List Char) (k : Nat) (s : List Char) :
    replaceFrom old new k s = replaceFrom old new 0 (s.drop k) := by
  induction s generalizing k with
  | nil => cases k <;> simp [replaceFrom]
  | cons c rest ih =>
    cases k with
    | zero => rfl
    | succ j =>
      rw [replaceFrom, ih j]
      rfl

theorem replaceFrom_nomatch (old new : List Char) (c : Char) (rest : List Char)
    (h : ¬ old <+: c :: rest) :
    replaceFrom old new 0 (c :: rest) = c :: replaceFrom old new 0 rest := by
  have hb : old.isPrefixOf (c :: rest) = false := by
    rw [Bool.eq_false_iff, Ne, List.isPrefixOf_iff_prefix]
    exact h
  rw [replaceFrom, hb]
  rfl

theorem replaceFrom_match (old new rest : List Char) (hold : old ≠ []) :
    replaceFrom old new 0 (old ++ rest) = new ++ replaceFrom old new 0 rest := by
  cases old with
  | nil => exact absurd rfl hold
  | cons c tail =>
    have hb : (c :: tail).isPrefixOf (c :: (tail ++ rest)) = true := by
      rw [List.isPrefixOf_iff_prefix]
      exact List.prefix_append (c :: tail) rest
    rw [List.cons_append, replaceFrom, hb, replaceFrom_skip]
    simp

/-- Text in which `old` does not occur is copied unchanged. -/
theorem replaceFrom_of_not_infix (old new s : List Char) (h : ¬ old <:+: s) :
    replaceFrom old new 0 s = s := by
  induction s with
  | nil => rfl
  | cons c rest ih =>
    have h1 : ¬ old <+: c :: rest := fun hp => h hp.isInfix
    have h2 : ¬ old <:+: rest := fun hi => h (hi.trans (List.suffix_cons c rest).isInfix)
    rw [replaceFrom_nomatch old new c rest h1, ih h2]

/-- A stretch of text without the first character of `old` is copied, and the scan
goes on after it. -/
theorem replaceFrom_copy (o : Char) (old new a rest : List Char)
    (ha : ∀ c ∈ a, c ≠ o) :
    replaceFrom (o :: old) new 0 (a ++ rest) = a ++ replaceFrom (o :: old) new 0 rest := by
  induction a with
  | nil => rfl
  | cons c tail ih =>
    have hc : c ≠ o := ha c (List.mem_cons_self _ _)
    have hno : ¬ (o :: old) <+: c :: (tail ++ rest) := by
      intro hp
      rw [List.cons_prefix_cons] at hp
      exact hc hp.1.symm
    rw [List.cons_append, replaceFrom_nomatch _ _ _ _ hno,
      ih (fun d hd => ha d (List.mem_cons_of_mem _ hd)), List.cons_append]

theorem ReplaceAll_data (s old new : String) (hold : old ≠ "") :
    (ReplaceAll s old new).data = replaceFrom old.data new.data 0 s.data := by
  unfold ReplaceAll
  rw [if_neg hold]

theorem placeholder_data (key : String) :
    (placeholder key).data =
      Char.ofNat 123 :: Char.ofNat 123 :: (key.data ++ [Char.ofNat 125, Char.ofNat 125]) := by
  unfold placeholder
  simp [String.data_append]

theorem placeholder_ne_empty (key : String) : placeholder key ≠ "" := by
  intro h
  have := congrArg String.data h
  rw [placeholder_data] at this
  simp at this

theorem ReplaceAll_of_not_occurs (s key value : String)
    (h : ¬ occursIn (placeholder key) s) : ReplaceAll s (placeholder key) value = s := by
  apply String.ext
  rw [ReplaceAll_data _ _ _ (placeholder_ne_empty key)]
  exact replaceFrom_of_not_infix _ _ _ h

/-! ## Placeholders of different keys -/

theorem not_isBrace (c : Char) (h : isBrace c = false) :
    c ≠ Char.ofNat 123 ∧ c ≠ Char.ofNat 125 := by
  unfold isBrace at h
  simpa using h

/-- Two different keys without a closing brace: the end of one placeholder does not
begin the end of the other, whatever follows. -/
theorem key_tail_not_prefix (K k rest : List Char)
    (hK : ∀ c ∈ K, c ≠ Char.ofNat 125) (hk : ∀ c ∈ k, c ≠ Char.ofNat 125) (hne : K ≠ k) :
    ¬ (K ++ [Char.ofNat 125, Char.ofNat 125]) <+: (k ++ [Char.ofNat 125, Char.ofNat 125] ++ rest) := by
  induction K generalizing k with
  | nil =>
    cases k with
    | nil => exact absurd rfl hne
    | cons b k2 =>
      intro hp
      simp only [List.nil_append, List.cons_append, List.cons_prefix_cons] at hp
      exact hk b (List.mem_cons_self _ _) hp.1.symm
  | cons a K2 ih =>
    cases k with
    | nil =>
      intro hp
      simp only [List.nil_append, List.cons_append, List.cons_prefix_cons] at hp
      exact hK a (List.mem_cons_self _ _) hp.1
    | cons b k2 =>
      intro hp
      simp only [List.cons_append, List.cons_prefix_cons] at hp
      have hne2 : K2 ≠ k2 := by
        intro heq
        exact hne (by rw [hp.1, heq])
      exact ih k2 (fun c hc => hK c (List.mem_cons_of_mem _ hc))
        (fun c hc => hk c (List.mem_cons_of_mem _ hc)) hne2 (by simpa using hp.2)

theorem replaceFrom_skips (old new a rest : List Char) (h : skips old a rest) :
    replaceFrom old new 0 (a ++ rest) = a ++ replaceFrom old new 0 rest := by
  induction a with
  | nil => rfl
  | cons c tail ih =>
    obtain ⟨hno, htail⟩ := h
    rw [List.cons_append, replaceFrom_nomatch _ _ _ _ hno, ih htail, List.cons_append]

theorem not_infix_of_skips (old a rest : List Char) (h : skips old a rest)
    (hrest : ¬ old <:+: rest) : ¬ old <:+: a ++ rest := by
  induction a with
  | nil => exact hrest
  | cons c tail ih =>
    obtain ⟨hno, htail⟩ := h
    intro hinfix
    rw [List.cons_append, List.infix_cons_iff] at hinfix
    rcases hinfix with hp | hi
    · exact hno hp
    · exact ih htail hi

/-- A stretch without the first character of `old` is skipped. -/
theorem skips_of_no_first (o : Char) (old a rest : List Char) (ha : ∀ c ∈ a, c ≠ o) :
    skips (o :: old) a rest := by
  induction a with
  | nil => trivial
  | cons c tail ih =>
    refine ⟨?_, ih (fun d hd => ha d (List.mem_cons_of_mem _ hd))⟩
    intro hp
    rw [List.cons_prefix_cons] at hp
    exact ha c (List.mem_cons_self _ _) hp.1.symm

/-- A text whose opening braces are isolated is skipped by a word that begins with
two opening braces. -/
theorem skips_of_openIsolated (old a rest : List Char) (h : openIsolated a = true) :
    skips (Char.ofNat 123 :: Char.ofNat 123 :: old) a rest := by
  induction a with
  | nil => trivial
  | cons c tail ih =>
    unfold openIsolated at h
    by_cases hc : c = Char.ofNat 123
    · rw [if_pos hc, Bool.and_eq_true] at h
      refine ⟨?_, ih h.2⟩
      intro hp
      cases tail with
      | nil => simp at h
      | cons d tail2 =>
        have hd : d ≠ Char.ofNat 123 := by simpa using h.1
        simp only [List.cons_append, List.cons_prefix_cons] at hp
        exact hd hp.2.1.symm
    · rw [if_neg hc] at h
      refine ⟨?_, ih h⟩
      intro hp
      rw [List.cons_prefix_cons] at hp
      exact hc hp.1.symm

/-- The placeholder of another key is skipped by the placeholder of `K`. -/
theorem skips_other_placeholder (K k : String) (rest : List Char)
    (hK : ∀ c ∈ K.data, isBrace c = false) (hk : ∀ c ∈ k.data, isBrace c = false)
    (hne : k ≠ K) :
    skips (placeholder K).data (placeholder k).data rest := by
  have hKr : ∀ c ∈ K.data, c ≠ Char.ofNat 125 := fun c hc => (not_isBrace c (hK c hc)).2
  have hkr : ∀ c ∈ k.data, c ≠ Char.ofNat 125 := fun c hc => (not_isBrace c (hk c hc)).2
  have hkl : ∀ c ∈ k.data ++ [Char.ofNat 125, Char.ofNat 125], c ≠ Char.ofNat 123 := by
    intro c hc
    rcases List.mem_append.mp hc with h | h
    · exact (not_isBrace c (hk c h)).1
    · have : c = Char.ofNat 125 := by simpa using h
      rw [this]
      decide
  have hdata : K.data ≠ k.data := fun h => hne (String.ext h).symm
  rw [placeholder_data K, placeholder_data k]
  refine ⟨?_, ?_, skips_of_no_first _ _ _ _ hkl⟩
  · intro hp
    simp only [List.cons_append, List.cons_prefix_cons, true_and] at hp
    exact key_tail_not_prefix K.data k.data rest hKr hkr hdata hp
  · intro hp
    rw [List.cons_prefix_cons] at hp
    cases hkd : k.data with
    | nil =>
      rw [hkd] at hp
      simp only [List.nil_append, List.cons_append, List.cons_prefix_cons] at hp
      exact absurd hp.2.1 (by decide)
    | cons b k2 =>
      rw [hkd] at hp
      simp only [List.cons_append, List.cons_prefix_cons] at hp
      have hb : b ≠ Char.ofNat 123 := hkl b (by rw [hkd]; simp)
      exact hb hp.2.1.symm

/-- One replacement step on a template given by pieces: the placeholders of `K`
get the value, everything else is copied. -/
theorem replaceFrom_expand (f : String → Option String) (K value : String)
    (pieces : List Piece)
    (hK : ∀ c ∈ K.data, isBrace c = false) (hfK : f K = none)
    (htext : ∀ s, Piece.text s ∈ pieces → openIsolated s.data = true)
    (hvals : ∀ k w, f k = some w → ∀ c ∈ w.data, c ≠ Char.ofNat 123)
    (hrefs : ∀ k, Piece.ref k ∈ pieces → ∀ c ∈ k.data, isBrace c = false) :
    replaceFrom (placeholder K).data value.data 0 (expand f pieces) =
      expand (fun k => if k = K then some value else f k) pieces := by
  induction pieces with
  | nil => rfl
  | cons p ps ih =>
    have ih2 := ih (fun s hs => htext s (List.mem_cons_of_mem _ hs))
      (fun k hk => hrefs k (List.mem_cons_of_mem _ hk))
    cases p with
    | text s =>
      simp only [expand]
      rw [replaceFrom_skips _ _ _ _ (by
        rw [placeholder_data K]
        exact skips_of_openIsolated _ _ _ (htext s (List.mem_cons_self _ _))), ih2]
    | ref k =>
      simp only [expand]
      by_cases hk : k = K
      · subst hk
        rw [hfK]
        simp only [if_true]
        rw [replaceFrom_match _ _ _ (by
          intro h
          exact placeholder_ne_empty k (String.ext h)), ih2]
      · simp only [if_neg hk]
        cases hf : f k with
        | some w =>
          simp only []
          rw [replaceFrom_skips _ _ _ _ (by
            rw [placeholder_data K]
            exact skips_of_no_first _ _ _ _ (hvals k w hf)), ih2]
        | none =>
          simp only []
          rw [replaceFrom_skips _ _ _ _
            (skips_other_placeholder K k _ hK (hrefs k (List.mem_cons_self _ _)) hk), ih2]

theorem expand_congr (f g : String → Option String) (pieces : List Piece)
    (h : ∀ k, Piece.ref k ∈ pieces → f k = g k) : expand f pieces = expand g pieces := by
  induction pieces with
  | nil => rfl
  | cons p ps ih =>
    have ih2 := ih (fun k hk => h k (List.mem_cons_of_mem _ hk))
    cases p with
    | text s => simp only [expand, ih2]
    | ref k => simp only [expand, ih2, h k (List.mem_cons_self _ _)]

/-- The loop of `substituteVariables` on a template given by pieces, started when
the keys described by `f` have already been given their values. -/
theorem foldl_expand (pieces : List Piece) (vars : Variables) (f : String → Option String)
    (hnodup : (vars.map Prod.fst).Nodup)
    (hkeys : ∀ kv ∈ vars, ∀ c ∈ kv.1.data, isBrace c = false)
    (hvalues : ∀ kv ∈ vars, ∀ c ∈ kv.2.data, c ≠ Char.ofNat 123)
    (hfresh : ∀ kv ∈ vars, f kv.1 = none)
    (htext : ∀ s, Piece.text s ∈ pieces → openIsolated s.data = true)
    (hvals : ∀ k w, f k = some w → ∀ c ∈ w.data, c ≠ Char.ofNat 123)
    (hrefs : ∀ k, Piece.ref k ∈ pieces → ∀ c ∈ k.data, isBrace c = false) :
    substituteVariables (String.mk (expand f pieces)) vars =
      String.mk (expand (fun k => match f k with
        | some w => some w
        | none => vars.lookup k) pieces) := by
  induction vars generalizing f with
  | nil =>
    unfold substituteVariables
    simp only [List.foldl_nil, List.lookup_nil]
    congr 1
    apply expand_congr
    intro k _
    cases f k <;> rfl
  | cons kv rest ih =>
    obtain ⟨K, value⟩ := kv
    have hstep : ReplaceAll (String.mk (expand f pieces)) (placeholder K) value =
        String.mk (expand (fun k => if k = K then some value else f k) pieces) := by
      apply String.ext
      rw [ReplaceAll_data _ _ _ (placeholder_ne_empty K)]
      exact replaceFrom_expand f K value pieces
        (hkeys (K, value) (List.mem_cons_self _ _))
        (hfresh (K, value) (List.mem_cons_self _ _)) htext hvals hrefs
    have hnd : K ∉ rest.map Prod.fst ∧ (rest.map Prod.fst).Nodup := by
      simpa using hnodup
    have hrest := ih (fun k => if k = K then some value else f k) hnd.2
      (fun kv hkv => hkeys kv (List.mem_cons_of_mem _ hkv))
      (fun kv hkv => hvalues kv (List.mem_cons_of_mem _ hkv))
      (by
        intro kv hkv
        have hne : kv.1 ≠ K := by
          intro heq
          exact hnd.1 (heq ▸ List.mem_map_of_mem Prod.fst hkv)
        simp only [if_neg hne]
        exact hfresh kv (List.mem_cons_of_mem _ hkv))
      (by
        intro k w hw
        by_cases hk : k = K
        · simp only [if_pos hk, Option.some.injEq] at hw
          rw [← hw]
          exact hvalues (K, value) (List.mem_cons_self _ _)
        · simp only [if_neg hk] at hw
          exact hvals k w hw)
    have hunfold : substituteVariables (String.mk (expand f pieces)) ((K, value) :: rest) =
        substituteVariables
          (ReplaceAll (String.mk (expand f pieces)) (placeholder K) value) rest := rfl
    rw [hunfold, hstep, hrest]
    congr 1
    apply expand_congr
    intro k _
    by_cases hk : k = K
    · subst hk
      simp [hfresh (k, value) (List.mem_cons_self _ _), List.lookup]
    · have hbeq : (k == K) = false := by simpa using hk
      simp only [if_neg hk, List.lookup, hbeq]

theorem mem_texts (pieces : List Piece) (s : String) :
    Piece.text s ∈ pieces ↔ s ∈ texts pieces := by
  unfold texts
  rw [List.mem_filterMap]
  constructor
  · intro h
    exact ⟨Piece.text s, h, rfl⟩
  · rintro ⟨p, hp, hs⟩
    cases p with
    | text t =>
      simp only [Option.some.injEq] at hs
      rw [← hs]
      exact hp
    | ref k => simp at hs

theorem mem_refKeys (pieces : List Piece) (k : String) :
    Piece.ref k ∈ pieces ↔ k ∈ refKeys pieces := by
  unfold refKeys
  rw [List.mem_filterMap]
  constructor
  · intro h
    exact ⟨Piece.ref k, h, rfl⟩
  · rintro ⟨p, hp, hs⟩
    cases p with
    | text t => simp at hs
    | ref j =>
      simp only [Option.some.injEq] at hs
      rw [← hs]
      exact hp

theorem lookup_of_mem_keys (vars : Variables) (k : String) (h : k ∈ vars.map Prod.fst) :
    ∃ w, vars.lookup k = some w ∧ (k, w) ∈ vars := by
  induction vars with
  | nil => simp at h
  | cons kv rest ih =>
    obtain ⟨K, value⟩ := kv
    by_cases hk : k = K
    · subst hk
      exact ⟨value, by simp [List.lookup], List.mem_cons_self _ _⟩
    · have hmem : k ∈ rest.map Prod.fst := by
        simp only [List.map_cons, List.mem_cons] at h
        rcases h with h | h
        · exact absurd h hk
        · exact h
      obtain ⟨w, hw, hin⟩ := ih hmem
      have hbeq : (k == K) = false := by simpa using hk
      exact ⟨w, by simp only [List.lookup, hbeq, hw], List.mem_cons_of_mem _ hin⟩

theorem mem_of_lookup (vars : Variables) (k w : String) (h : vars.lookup k = some w) :
    (k, w) ∈ vars := by
  induction vars with
  | nil => simp at h
  | cons kv rest ih =>
    obtain ⟨K, value⟩ := kv
    by_cases hk : k = K
    · subst hk
      have hw : value = w := by simpa [List.lookup] using h
      rw [hw]
      exact List.mem_cons_self _ _
    · have hbeq : (k == K) = false := by simpa using hk
      simp only [List.lookup, hbeq] at h
      exact List.mem_cons_of_mem _ (ih h)

/-- The placeholder of `K` does not occur in a filled template in which every
placeholder left is the placeholder of another key. -/
theorem expand_no_placeholder (f : String → Option String) (K : String)
    (pieces : List Piece) (hK : ∀ c ∈ K.data, isBrace c = false)
    (htext : ∀ s, Piece.text s ∈ pieces → openIsolated s.data = true)
    (hvals : ∀ k w, f k = some w → ∀ c ∈ w.data, c ≠ Char.ofNat 123)
    (hrefs : ∀ k, Piece.ref k ∈ pieces → ∀ c ∈ k.data, isBrace c = false)
    (hleft : ∀ k, Piece.ref k ∈ pieces → f k = none → k ≠ K) :
    ¬ (placeholder K).data <:+: expand f pieces := by
  induction pieces with
  | nil =>
    intro h
    have hnil : (placeholder K).data = [] := by simpa [expand] using h
    rw [placeholder_data] at hnil
    simp at hnil
  | cons p ps ih =>
    have ih2 := ih (fun s hs => htext s (List.mem_cons_of_mem _ hs))
      (fun k hk => hrefs k (List.mem_cons_of_mem _ hk))
      (fun k hk => hleft k (List.mem_cons_of_mem _ hk))
    cases p with
    | text s =>
      simp only [expand]
      refine not_infix_of_skips _ _ _ ?_ ih2
      rw [placeholder_data K]
      exact skips_of_openIsolated _ _ _ (htext s (List.mem_cons_self _ _))
    | ref k =>
      simp only [expand]
      cases hf : f k with
      | some w =>
        simp only []
        refine not_infix_of_skips _ _ _ ?_ ih2
        rw [placeholder_data K]
        exact skips_of_no_first _ _ _ _ (hvals k w hf)
      | none =>
        simp only []
        exact not_infix_of_skips _ _ _
          (skips_other_placeholder K k _ hK (hrefs k (List.mem_cons_self _ _))
            (hleft k (List.mem_cons_self _ _) hf)) ih2

/-! ## Substitution: the claims -/

/-- C14 as stated fails: with the single variable `A` of value `A`, which has no
brace in it, the template made of the placeholder of `A` between two opening and
two closing braces becomes the placeholder of `A`, so the result still contains
it. -/
theorem substituteVariables_leaves_placeholder_counterexample :
    "A".data.all (fun c => !isBrace c) = true ∧
      occursIn (placeholder "A") nestedTemplate ∧
      substituteVariables nestedTemplate [("A", "A")] = placeholder "A" ∧
      occursIn (placeholder "A") (substituteVariables nestedTemplate [("A", "A")]) := by
  decide

/-- C14, amended: for a template made of placeholders of keys without braces and
of text segments in which every opening brace is followed by a character that is
not an opening brace, and a map whose keys are distinct and without braces and
whose values are without braces, the result of `substituteVariables`, in whatever
order the entries are visited, is the template with each placeholder of a key of
the map replaced by the value of that key (text and the placeholders of other keys
unchanged), and it contains the placeholder of no key of the map. -/
theorem substituteVariables_fills_template (pieces : List Piece) (vars : Variables)
    (hnodup : (vars.map Prod.fst).Nodup)
    (hkeys : ∀ kv ∈ vars, ∀ c ∈ kv.1.data, isBrace c = false)
    (hvalues : ∀ kv ∈ vars, ∀ c ∈ kv.2.data, isBrace c = false)
    (htext : ∀ s ∈ texts pieces, openIsolated s.data = true)
    (hrefs : ∀ k ∈ refKeys pieces, ∀ c ∈ k.data, isBrace c = false) :
    substituteVariables (templateOf pieces) vars = filledTemplate vars pieces ∧
      ∀ kv ∈ vars,
        ¬ occursIn (placeholder kv.1) (substituteVariables (templateOf pieces) vars) := by
  have hvalOpen : ∀ kv ∈ vars, ∀ c ∈ kv.2.data, c ≠ Char.ofNat 123 :=
    fun kv hkv c hc => (not_isBrace c (hvalues kv hkv c hc)).1
  have htext2 : ∀ s, Piece.text s ∈ pieces → openIsolated s.data = true :=
    fun s hs => htext s ((mem_texts pieces s).mp hs)
  have hrefKeys : ∀ k, Piece.ref k ∈ pieces → ∀ c ∈ k.data, isBrace c = false :=
    fun k hk => hrefs k ((mem_refKeys pieces k).mp hk)
  have hresult : substituteVariables (templateOf pieces) vars =
      filledTemplate vars pieces := by
    unfold templateOf filledTemplate
    rw [foldl_expand pieces vars (fun _ => none) hnodup hkeys hvalOpen
      (fun _ _ => rfl) htext2 (fun k w hw => by simp at hw) hrefKeys]
  refine ⟨hresult, ?_⟩
  intro kv hkv hocc
  rw [hresult] at hocc
  unfold occursIn filledTemplate at hocc
  refine expand_no_placeholder _ kv.1 pieces (hkeys kv hkv) htext2 ?_ hrefKeys ?_ hocc
  · intro k w hw
    exact hvalOpen (k, w) (mem_of_lookup vars k w hw)
  · intro k _ hnone hk
    obtain ⟨w, hw, _⟩ := lookup_of_mem_keys vars kv.1 (List.mem_map_of_mem Prod.fst hkv)
    rw [hk, hw] at hnone
    simp at hnone

/-- C14, amended, at a concrete input: a template with braces in its text, two
placeholders of one key, one of another and one of an unknown key, and three
variables visited in another order. -/
theorem substituteVariables_fills_template_witness :
    substituteVariables (templateOf samplePieces) sampleVars =
        "home: $\x7bHOME\x7d input_dir: /data/input threads: 8 again: /data/input other: \x7b\x7bUNKNOWN\x7d\x7d" ∧
      ¬ occursIn (placeholder "INPUT_DIR")
        (substituteVariables (templateOf samplePieces) sampleVars) :=
  ⟨(substituteVariables_fills_template samplePieces sampleVars (by decide) (by decide)
      (by decide) (by decide) (by decide)).1.trans (by decide),
   (substituteVariables_fills_template samplePieces sampleVars (by decide) (by decide)
      (by decide) (by decide) (by decide)).2 ("INPUT_DIR", "/data/input") (by decide)⟩

/-- C19 fails on the code: with `APP_VERSION` set to `DIR`, the variables that
`getVariables` returns turn the same template into the placeholder of `INPUT_DIR`
when visited in one order and into `/data/input` when visited in the reverse
order. -/
theorem substituteVariables_order_dependent :
    (getVariables envVersionDir 8).reverse.Perm (getVariables envVersionDir 8) ∧
      substituteVariables versionedTemplate (getVariables envVersionDir 8) =
        placeholder "INPUT_DIR" ∧
      substituteVariables versionedTemplate (getVariables envVersionDir 8).reverse =
        "/data/input" ∧
      substituteVariables versionedTemplate (getVariables envVersionDir 8) ≠
        substituteVariables versionedTemplate (getVariables envVersionDir 8).reverse :=
  ⟨List.reverse_perm _, by decide, by decide, by decide⟩

/-- C20: a template in which the placeholder of no key of the map occurs is
returned unchanged; so is every template for the empty map, and every template
without two consecutive opening braces. -/
theorem substituteVariables_without_placeholders (template : String) (vars : Variables) :
    ((∀ kv ∈ vars, ¬ occursIn (placeholder kv.1) template) →
        substituteVariables template vars = template) ∧
      substituteVariables template [] = template ∧
      (¬ occursIn "\x7b\x7b" template → substituteVariables template vars = template) := by
  have hmain : ∀ l : Variables, (∀ kv ∈ l, ¬ occursIn (placeholder kv.1) template) →
      substituteVariables template l = template := by
    intro l
    induction l with
    | nil => intro _; rfl
    | cons kv rest ih =>
      intro h
      have hstep : substituteVariables template (kv :: rest) =
          substituteVariables (ReplaceAll template (placeholder kv.1) kv.2) rest := rfl
      rw [hstep, ReplaceAll_of_not_occurs template kv.1 kv.2 (h kv (List.mem_cons_self _ _))]
      exact ih (fun kv2 hkv2 => h kv2 (List.mem_cons_of_mem _ hkv2))
  refine ⟨hmain vars, rfl, ?_⟩
  intro hno
  apply hmain vars
  intro kv _ hocc
  apply hno
  unfold occursIn at hocc ⊢
  refine List.IsInfix.trans ?_ hocc
  rw [placeholder_data]
  exact ⟨[], kv.1.data ++ [Char.ofNat 125, Char.ofNat 125], by simp⟩

/-- C20, at a concrete input: a text with single braces only goes through the
variables of `getVariables` unchanged. -/
theorem substituteVariables_without_placeholders_witness :
    substituteVariables "threads: \x7bNUM_THREADS\x7d" (getVariables envVersionDir 8) =
      "threads: \x7bNUM_THREADS\x7d" :=
  (substituteVariables_without_placeholders "threads: \x7bNUM_THREADS\x7d"
    (getVariables envVersionDir 8)).2.2 (by decide)

/-! ## Validation of the generated configuration and the environment -/

theorem hasKey_iff {Value : Type} (config : List (String × Value)) (key : String) :
    hasKey config key = true ↔ key ∈ config.map Prod.fst := by
  unfold hasKey
  rw [List.any_eq_true, List.mem_map]
  constructor
  · rintro ⟨kv, hin, hk⟩
    exact ⟨kv, hin, by simpa using hk⟩
  · rintro ⟨kv, hin, hk⟩
    exact ⟨kv, hin, by simpa using hk⟩

/-- C15: `validateConfig` succeeds if and only if the document decodes and the
decoded mapping has the keys `input_dir` and `output_dir`, whatever their values;
a document that does not decode gives "invalid YAML: " and the decoder's error, a
mapping without `input_dir` gives "input_dir not specified" (also when
`output_dir` is absent too), and a mapping with `input_dir` and without
`output_dir` gives "output_dir not specified". -/
theorem validateConfig_spec {Bytes Value : Type}
    (unmarshal : Bytes → List (String × Value) × Config.GoError) (content : Bytes) :
    (validateConfig unmarshal content = none ↔
        (unmarshal content).2 = none ∧
          "input_dir" ∈ (unmarshal content).1.map Prod.fst ∧
          "output_dir" ∈ (unmarshal content).1.map Prod.fst) ∧
      (∀ e, (unmarshal content).2 = some e →
        validateConfig unmarshal content = some ("invalid YAML: " ++ e)) ∧
      ((unmarshal content).2 = none →
        "input_dir" ∉ (unmarshal content).1.map Prod.fst →
        validateConfig unmarshal content = some "input_dir not specified") ∧
      ((unmarshal content).2 = none →
        "input_dir" ∈ (unmarshal content).1.map Prod.fst →
        "output_dir" ∉ (unmarshal content).1.map Prod.fst →
        validateConfig unmarshal content = some "output_dir not specified") := by
  unfold validateConfig
  rcases hu : unmarshal content with ⟨config, err⟩
  cases err with
  | some e => simp
  | none =>
    have hin := hasKey_iff config "input_dir"
    have hout := hasKey_iff config "output_dir"
    by_cases h1 : hasKey config "input_dir" = true <;>
      by_cases h2 : hasKey config "output_dir" = true <;>
      simp [h1, h2, ← hin, ← hout]

/-- C15, at concrete inputs: a mapping with a null `input_dir` and an empty
`output_dir` passes; a mapping with neither key reports `input_dir`. -/
theorem validateConfig_spec_witness :
    validateConfig sampleDecode "input_dir:\noutput_dir: \"\"" = none ∧
      validateConfig sampleDecode "threads: 8" = some "input_dir not specified" :=
  ⟨(validateConfig_spec sampleDecode "input_dir:\noutput_dir: \"\"").1.mpr (by decide),
   (validateConfig_spec sampleDecode "threads: 8").2.2.1 (by decide) (by decide)⟩

/-- C16: `getEnv` returns the environment's value when it is non-empty and the
default otherwise, so a variable set to the empty string is treated like one that
is not set, and the result is non-empty when the default is; and `getVariables`
yields exactly the keys INPUT_DIR, OUTPUT_DIR, NUM_THREADS and VERSION, the first,
second and fourth falling back to "/data/input", "/data/output" and "1.0.0". -/
theorem getEnv_spec (env : String → Option String) (key defaultValue : String)
    (numCPU : Int) :
    (∀ v, env key = some v → v ≠ "" → getEnv env key defaultValue = v) ∧
      (env key = some "" → getEnv env key defaultValue = defaultValue) ∧
      (env key = none → getEnv env key defaultValue = defaultValue) ∧
      (defaultValue ≠ "" → getEnv env key defaultValue ≠ "") ∧
      (getVariables env numCPU).map Prod.fst =
        ["INPUT_DIR", "OUTPUT_DIR", "NUM_THREADS", "VERSION"] ∧
      ((env "APP_DATA" = none ∨ env "APP_DATA" = some "") →
        (getVariables env numCPU).lookup "INPUT_DIR" = some "/data/input") ∧
      ((env "APP_OUTPUT" = none ∨ env "APP_OUTPUT" = some "") →
        (getVariables env numCPU).lookup "OUTPUT_DIR" = some "/data/output") ∧
      ((env "APP_VERSION" = none ∨ env "APP_VERSION" = some "") →
        (getVariables env numCPU).lookup "VERSION" = some "1.0.0") ∧
      (∀ v, env "APP_DATA" = some v → v ≠ "" →
        (getVariables env numCPU).lookup "INPUT_DIR" = some v) := by
  have hunset : ∀ k d, (env k = none ∨ env k = some "") → getEnv env k d = d := by
    intro k d h
    unfold getEnv Getenv
    rcases h with h | h <;> simp [h]
  have hset : ∀ k d v, env k = some v → v ≠ "" → getEnv env k d = v := by
    intro k d v h hv
    unfold getEnv Getenv
    simp [h, hv]
  refine ⟨fun v h hv => hset key defaultValue v h hv,
    fun h => hunset key defaultValue (Or.inr h),
    fun h => hunset key defaultValue (Or.inl h), ?_, rfl, ?_, ?_, ?_, ?_⟩
  · intro hd
    unfold getEnv
    by_cases h : Getenv env key ≠ ""
    · rw [if_pos h]
      exact h
    · rw [if_neg h]
      exact hd
  · intro h
    simp [getVariables, List.lookup, hunset "APP_DATA" "/data/input" h]
  · intro h
    simp [getVariables, List.lookup, hunset "APP_OUTPUT" "/data/output" h]
  · intro h
    simp [getVariables, List.lookup, hunset "APP_VERSION" "1.0.0" h]
  · intro v h hv
    simp [getVariables, List.lookup, hset "APP_DATA" "/data/input" v h hv]

/-- C16, at a concrete input: with `APP_DATA` set to the empty string and
`APP_OUTPUT` set, the input directory is the default and the output directory is
the one set. -/
theorem getEnv_spec_witness :
    getEnv envEmptyData "APP_DATA" "/data/input" = "/data/input" ∧
      getEnv envEmptyData "APP_OUTPUT" "/data/output" = "/scratch/out" ∧
      (getVariables envEmptyData 8).lookup "INPUT_DIR" = some "/data/input" :=
  ⟨(getEnv_spec envEmptyData "APP_DATA" "/data/input" 8).2.1 (by decide),
   (getEnv_spec envEmptyData "APP_OUTPUT" "/data/output" 8).1 "/scratch/out" (by decide)
     (by decide),
   (getEnv_spec envEmptyData "APP_DATA" "/data/input" 8).2.2.2.2.2.1
     (Or.inr (by decide))⟩

end Generator
